import Mathlib

/-!
Verification of the robin-mcp context routing engine, schema migration
sequencer and adapter registry.

The TypeScript sources are shallowly embedded as pure Lean functions over an
explicit `Store` value that models the persisted SQLite catalog (tables
`sources`, `source_rules`, `contexts`).  Each definition mirrors one function
or request handler of the source tree:

* `compactPriorities`                      — src/src/db.ts
* the migration functions and `initSchemaModel` — src/src/db.ts initSchema
* `setSourceRule`, `registerSource`, `getSourceRouting`,
  `registeredSourceToolNames`              — src/src/tools/sources.ts
* `deleteRule`, `reorderRules`, `upsertContext` — dashboard api router
* `isWriteTool`, `classifyIsWrite`, `discoverTools`, adapter accessors
                                           — mcp-proxy adapter
* `syncSourcesToDb`, `ensureInitializedRecords`, `registeredAdapterTools`,
  `ensureInitializedEffects`               — src/src/adapters/registry.ts

Machine integers do not overflow in any of the modelled code paths, so rule
ids are `Nat` and priorities are `Int` (reorder temporarily assigns negative
priorities).  Fallible handlers return an `OpResult` carrying the resulting
store, a success flag, and the list of cache invalidations the handler
performed.
-/

namespace RobinMcp

/-- Row of the `sources` table (src/src/db.ts schema). -/
structure Source where
  id : String
  name : String
  description : String
  tools : String
  resources : String
deriving DecidableEq, Repr

/-- Row of the `source_rules` table. `id` is the AUTOINCREMENT primary key. -/
structure Rule where
  id : Nat
  context : String
  sourceId : String
  priority : Int
  reason : String
deriving DecidableEq, Repr

/-- Row of the `contexts` table. -/
structure Ctx where
  name : String
  description : String
deriving DecidableEq, Repr

/-- The persisted catalog store.  `nextId` models the AUTOINCREMENT counter of
`source_rules`; `hasPriorityUnique` records whether the rebuilt table with the
`UNIQUE(context, priority)` constraint is in place; `hasFts` records whether
the notes FTS virtual table exists. -/
structure Store where
  nextId : Nat
  sources : List Source
  rules : List Rule
  contexts : List Ctx
  hasPriorityUnique : Bool
  hasFts : Bool
deriving DecidableEq, Repr

/-! ## List helpers

Structural-recursion insertion sorts stand in for the SQL `ORDER BY` clauses
(they are stable, and reduce inside `decide`), and `distinctStrings` stands in
for `SELECT DISTINCT` (first-occurrence order). -/

/-- Insert a rule into a list that is sorted by ascending priority. -/
def insertByPriority (r : Rule) : List Rule → List Rule
  | [] => [r]
  | x :: xs => if r.priority ≤ x.priority then r :: x :: xs else x :: insertByPriority r xs

/-- Stable sort by ascending priority, modelling `ORDER BY priority`. -/
def sortRules (l : List Rule) : List Rule := l.foldr insertByPriority []

/-- Code-point comparison of character lists (lexicographic). -/
def charsLe : List Char → List Char → Bool
  | [], _ => true
  | _ :: _, [] => false
  | x :: xs, y :: ys =>
      if x.toNat < y.toNat then true
      else if y.toNat < x.toNat then false
      else charsLe xs ys

/-- Lexicographic string comparison, the default JavaScript sort order. -/
def strLeB (a b : String) : Bool := charsLe a.data b.data

/-- Insert a string into a lexicographically sorted list. -/
def insertStr (x : String) : List String → List String
  | [] => [x]
  | y :: ys => if strLeB x y then x :: y :: ys else y :: insertStr x ys

/-- Lexicographic sort, modelling the JavaScript `Array.prototype.sort`. -/
def sortStrings (l : List String) : List String := l.foldr insertStr []

/-- Helper for `distinctStrings`: drop elements already seen. -/
def distinctAux (seen : List String) : List String → List String
  | [] => []
  | x :: xs =>
      if seen.contains x then distinctAux seen xs
      else x :: distinctAux (x :: seen) xs

/-- First-occurrence deduplication, modelling `SELECT DISTINCT`
and `new Set(...)`. -/
def distinctStrings (l : List String) : List String := distinctAux [] l

/-- All rules of one context (`WHERE context = ?`). -/
def rulesIn (s : Store) (c : String) : List Rule :=
  s.rules.filter (fun r => r.context == c)

/-! ## Routing engine operations -/

/-- One `UPDATE source_rules SET priority = ? WHERE id = ?`. -/
def setPriorityById (s : Store) (rid : Nat) (p : Int) : Store :=
  { s with rules := s.rules.map (fun r =>
      if r.id == rid then { r with priority := p } else r) }

/-- A `forEach((row, i) => ...)` pass issuing priority updates keyed by rule
id, with priorities computed from the running index by `f`. -/
def applyIdPhase (f : Nat → Int) : Store → List Nat → Nat → Store
  | s, [], _ => s
  | s, rid :: rest, i => applyIdPhase f (setPriorityById s rid (f i)) rest (i + 1)

/-- db.ts `compactPriorities`: renumber all rules in a context to sequential
`1..N` priorities in order of current priority, updating each row by id
(`rules.forEach((rule, i) => update.run(i + 1, rule.id))`). -/
def compactPriorities (s : Store) (c : String) : Store :=
  applyIdPhase (fun i => (i : Int) + 1) s ((sortRules (rulesIn s c)).map (·.id)) 0

/-- `SELECT COALESCE(MAX(priority), 0) FROM source_rules WHERE context = ?`. -/
def maxPriority (s : Store) (c : String) : Int :=
  match (rulesIn s c).map (·.priority) with
  | [] => 0
  | p :: ps => ps.foldl max p

/-- The two process-global caches: the routing-guide text memo of
tools/sources.ts and the tool-name to source-id map of analytics/tracker.ts. -/
inductive CacheAction where
  | routingGuide
  | sourceMap
deriving DecidableEq, Repr

/-- Outcome of a mutating handler: resulting store, success flag, and the
explicit cache invalidations the handler performed. -/
structure OpResult where
  store : Store
  ok : Bool
  invalidations : List CacheAction
deriving DecidableEq, Repr

/-- The `set-source-rule` tool handler (tools/sources.ts): reject an unknown
source; update reason only for an existing (context, source) pair; otherwise
insert at `max(priority) + 1` and auto-create the context row. -/
def setSourceRule (s : Store) (context sourceId reason : String) : OpResult :=
  if !(s.sources.any (fun src => src.id == sourceId)) then
    { store := s, ok := false, invalidations := [] }
  else
    match s.rules.find? (fun r => r.context == context && r.sourceId == sourceId) with
    | some existing =>
        { store := { s with rules := s.rules.map (fun r =>
              if r.id == existing.id then { r with reason := reason } else r) },
          ok := true, invalidations := [.routingGuide] }
    | none =>
        let newPriority := maxPriority s context + 1
        let s1 := { s with
          rules := s.rules ++
            [({ id := s.nextId, context := context, sourceId := sourceId,
                priority := newPriority, reason := reason } : Rule)],
          nextId := s.nextId + 1 }
        let s2 :=
          if s1.contexts.any (fun k => k.name == context) then s1
          else { s1 with contexts := s1.contexts ++ [({ name := context, description := "" } : Ctx)] }
        { store := s2, ok := true, invalidations := [.routingGuide] }

/-- `INSERT ... ON CONFLICT(id) DO UPDATE` on the `sources` table. -/
def upsertSource (s : Store) (id name description tools resources : String) : Store :=
  if s.sources.any (fun src => src.id == id) then
    { s with sources := s.sources.map (fun src =>
        if src.id == id then
          ({ id := id, name := name, description := description,
             tools := tools, resources := resources } : Source)
        else src) }
  else
    { s with sources := s.sources ++
        [{ id := id, name := name, description := description,
           tools := tools, resources := resources }] }

/-- The `register-source` tool handler (tools/sources.ts). -/
def registerSource (s : Store) (id name description tools resources : String) : OpResult :=
  { store := upsertSource s id name description tools resources,
    ok := true, invalidations := [.routingGuide] }

/-- The `DELETE /api/routing` handler: delete the (context, source) row; 404
when nothing was deleted, otherwise compact the context and bust the cache. -/
def deleteRule (s : Store) (context sourceId : String) : OpResult :=
  let hit := s.rules.any (fun r => r.context == context && r.sourceId == sourceId)
  if !hit then { store := s, ok := false, invalidations := [] }
  else
    let s1 := { s with rules := s.rules.filter (fun r =>
        !(r.context == context && r.sourceId == sourceId)) }
    { store := compactPriorities s1 context, ok := true, invalidations := [.routingGuide] }

/-- One `UPDATE source_rules SET priority = ? WHERE context = ? AND source_id = ?`. -/
def setPriorityBySource (s : Store) (c sid : String) (p : Int) : Store :=
  { s with rules := s.rules.map (fun r =>
      if r.context == c && r.sourceId == sid then { r with priority := p } else r) }

/-- One pass of the reorder transaction: `sourceIds.forEach((sid, i) => ...)`
issuing priority updates keyed by (context, source_id), with priorities
computed from the running index by `f`. -/
def applyPhase (c : String) (f : Nat → Int) : Store → List String → Nat → Store
  | s, [], _ => s
  | s, sid :: rest, i => applyPhase c f (setPriorityBySource s c sid (f i)) rest (i + 1)

/-- Existing source ids of a context in priority order
(`SELECT source_id FROM source_rules WHERE context = ? ORDER BY priority`). -/
def existingSourceIds (s : Store) (c : String) : List String :=
  (sortRules (rulesIn s c)).map (·.sourceId)

/-- The `POST /api/routing/reorder` handler: reject missing fields, an id list
that does not match the existing set, or duplicate ids; otherwise run the
two-phase transaction (temporary negative priorities, then final `1..N`). -/
def reorderRules (s : Store) (context : String) (sourceIds : List String) : OpResult :=
  if context == "" || sourceIds.isEmpty then
    { store := s, ok := false, invalidations := [] }
  else
    let existingIds := existingSourceIds s context
    if !(sortStrings existingIds == sortStrings sourceIds) then
      { store := s, ok := false, invalidations := [] }
    else if !((distinctStrings sourceIds).length == sourceIds.length) then
      { store := s, ok := false, invalidations := [] }
    else
      let mid := applyPhase context (fun i => -((i : Int) + 1)) s sourceIds 0
      let fin := applyPhase context (fun i => (i : Int) + 1) mid sourceIds 0
      { store := fin, ok := true, invalidations := [.routingGuide] }

/-- The `PUT /api/contexts/:name` handler: upsert a context description. -/
def upsertContext (s : Store) (name description : String) : OpResult :=
  let s1 :=
    if s.contexts.any (fun k => k.name == name) then
      { s with contexts := s.contexts.map (fun k =>
          if k.name == name then { k with description := description } else k) }
    else { s with contexts := s.contexts ++ [{ name := name, description := description }] }
  { store := s1, ok := true, invalidations := [.routingGuide] }

/-- The `ensureRule` closure of `AdapterRegistry.syncSourcesToDb`: update the reason
for an existing (context, source) pair, otherwise append at `max + 1`. -/
def ensureRule (s : Store) (context sourceId reason : String) : Store :=
  if s.rules.any (fun r => r.context == context && r.sourceId == sourceId) then
    { s with rules := s.rules.map (fun r =>
        if r.context == context && r.sourceId == sourceId then { r with reason := reason } else r) }
  else
    { s with
      rules := s.rules ++
        [{ id := s.nextId, context := context, sourceId := sourceId,
           priority := maxPriority s context + 1, reason := reason }],
      nextId := s.nextId + 1 }

/-! ## Routing queries (get-source-routing tool / preview endpoint) -/

/-- One row of the joined routing query
(`SELECT sr.*, s.name, s.tools, s.resources ... JOIN sources`). -/
structure RoutingRow where
  sourceId : String
  name : String
  priority : Int
  reason : String
  tools : String
  resources : String
deriving DecidableEq, Repr

/-- Inner join of a rule list against the `sources` table. -/
def joinRows (s : Store) (l : List Rule) : List RoutingRow :=
  l.filterMap (fun r =>
    match s.sources.find? (fun src => src.id == r.sourceId) with
    | some src => some
        { sourceId := r.sourceId, name := src.name, priority := r.priority,
          reason := r.reason, tools := src.tools, resources := src.resources }
    | none => none)

/-- The joined rule rows of one context in ascending priority order. -/
def routingQuery (s : Store) (c : String) : List RoutingRow :=
  joinRows s (sortRules (rulesIn s c))

/-- Result shape of the `get-source-routing` tool: the rules of the exact context,
the general fallback list, or the "no routing rules found" reply. -/
inductive RoutingResult where
  | exact (rows : List RoutingRow)
  | fallbackGeneral (rows : List RoutingRow)
  | noRules
deriving DecidableEq, Repr

/-- The `get-source-routing` tool handler: exact context rules in priority
order, falling back to the `general` context, then to "use any tools". -/
def getSourceRouting (s : Store) (c : String) : RoutingResult :=
  let rules := routingQuery s c
  if rules.isEmpty then
    let general := routingQuery s "general"
    if general.isEmpty then .noRules else .fallbackGeneral general
  else .exact rules

/-! ## Proxy adapter (mcp-proxy): write classification and discovery -/

/-- The MCP tool annotation hints an upstream may declare. -/
structure ToolHints where
  readOnlyHint : Option Bool
  destructiveHint : Option Bool
deriving DecidableEq, Repr

/-- A tool as listed by an upstream MCP server. -/
structure UpstreamTool where
  name : String
  hints : Option ToolHints
deriving DecidableEq, Repr

/-- mcp-proxy `isWriteTool`: write = marked `destructiveHint`, or explicitly
marked `readOnlyHint: false`; a tool with no annotations is assumed read. -/
def isWriteTool (t : UpstreamTool) : Bool :=
  match t.hints with
  | none => false
  | some h =>
      if h.destructiveHint == some true then true
      else if h.readOnlyHint == some false then true
      else false

/-- Per-adapter configuration (adapters/types.ts), restricted to the fields
the registry logic reads: `pfx` is the display prefix used to namespace
tools. -/
structure AdapterCfg where
  id : String
  name : String
  pfx : String
  description : String
  enabled : Bool
  toolFilter : Option (List String)
  writeTools : Option (List String)
deriving DecidableEq, Repr

/-- A discovered tool after classification (adapters/types.ts
`AdapterToolDefinition`, minus the raw JSON schema). -/
structure AdapterToolDef where
  name : String
  isWrite : Bool
deriving DecidableEq, Repr

/-- A discovered resource. -/
structure AdapterResDef where
  uri : String
  name : String
deriving DecidableEq, Repr

/-- The `isWrite` computation inside the initialization of `McpProxyAdapter`:
the configured `writeTools` override wins; otherwise `isWriteTool`. -/
def classifyIsWrite (writeTools : Option (List String)) (t : UpstreamTool) : Bool :=
  match writeTools with
  | some ws => ws.contains t.name
  | none => isWriteTool t

/-- Tool discovery inside the initialization of `McpProxyAdapter`: map every
upstream tool to its name plus the derived `isWrite` flag. -/
def discoverTools (cfg : AdapterCfg) (upstream : List UpstreamTool) : List AdapterToolDef :=
  upstream.map (fun t => { name := t.name, isWrite := classifyIsWrite cfg.writeTools t })

/-- One adapter as the registry sees it: its configuration plus the outcome of
its (fallible) initialization.  `Except.error e` models an initialization that
throws with message `e`; the adapter then contributes no tools or resources. -/
structure AdapterState where
  cfg : AdapterCfg
  initResult : Except String (List AdapterToolDef × List AdapterResDef)
deriving Repr

/-- Tools held by the adapter instance: empty when initialization failed. -/
def discoveredTools (a : AdapterState) : List AdapterToolDef :=
  match a.initResult with
  | .ok (ts, _) => ts
  | .error _ => []

/-- Resources held by the adapter instance. -/
def discoveredResources (a : AdapterState) : List AdapterResDef :=
  match a.initResult with
  | .ok (_, rs) => rs
  | .error _ => []

/-- `McpProxyAdapter.getTools`: the discovered tools narrowed by the
configured allow-list. -/
def adapterGetTools (a : AdapterState) : List AdapterToolDef :=
  match a.cfg.toolFilter with
  | some allowed => (discoveredTools a).filter (fun t => allowed.contains t.name)
  | none => discoveredTools a

/-- `McpProxyAdapter.getResources`. -/
def adapterGetResources (a : AdapterState) : List AdapterResDef :=
  discoveredResources a

/-! ## Adapter registry -/

/-- One `adapter_health` log row written by `ensureInitialized`. -/
structure HealthRecord where
  adapterId : String
  status : String
  toolCount : Option Nat
  resourceCount : Option Nat
  errorMessage : Option String
deriving DecidableEq, Repr

/-- The health record `ensureInitialized` logs for one adapter: `up` with the
discovered counts on success, `down` with the error message on failure. -/
def healthOf (a : AdapterState) : HealthRecord :=
  match a.initResult with
  | .ok _ =>
      { adapterId := a.cfg.id, status := "up",
        toolCount := some (adapterGetTools a).length,
        resourceCount := some (adapterGetResources a).length,
        errorMessage := none }
  | .error e =>
      { adapterId := a.cfg.id, status := "down",
        toolCount := none, resourceCount := none, errorMessage := some e }

/-- `ensureInitialized` settles the initialization of every enabled adapter and
logs one health record per enabled adapter regardless of outcome
(`Promise.allSettled` plus per-adapter try/catch). -/
def ensureInitializedRecords (adapters : List AdapterState) : List HealthRecord :=
  (adapters.filter (fun a => a.cfg.enabled)).map healthOf

/-- `AdapterRegistry.registerOnServer`: for every enabled adapter, mount each
tool under `pfx ++ name`, skipping write-classified tools entirely when the
session is read-only.  Each entry carries the `isWrite` flag of the tool. -/
def registeredAdapterTools (adapters : List AdapterState) (readOnly : Bool) : List (String × Bool) :=
  (adapters.filter (fun a => a.cfg.enabled)).flatMap (fun a =>
    ((adapterGetTools a).filter (fun t => !(readOnly && t.isWrite))).map
      (fun t => (a.cfg.pfx ++ t.name, t.isWrite)))

/-- Tool names mounted by `registerSourceTools` (tools/sources.ts): the
mutating tools `set-source-rule` and `register-source` are only registered on
full-access sessions. -/
def registeredSourceToolNames (readOnly : Bool) : List String :=
  ["get-source-routing"] ++ (if readOnly then [] else ["set-source-rule", "register-source"])

/-- Comma-joined prefixed tool names persisted into a `sources` row. -/
def adapterToolNames (a : AdapterState) : String :=
  String.intercalate "," ((adapterGetTools a).map (fun t => a.cfg.pfx ++ t.name))

/-- Comma-joined synthetic resource URIs persisted into a `sources` row. -/
def adapterResourceUris (a : AdapterState) : String :=
  String.intercalate ","
    ((adapterGetResources a).map (fun r => "robin://adapter/" ++ a.cfg.id ++ "/" ++ r.uri))

/-- The long-form description of the synthetic work Google Workspace source. -/
def gdocsWorkDesc : String :=
  "Google Docs & Drive for robin@knapsack.cloud. Use account parameter \x27robin@knapsack.cloud\x27 with gdocs-* tools. Contains Knapsack work docs, meeting notes, and professional content."

/-- The long-form description of the synthetic personal Google Workspace source. -/
def gdocsPersonalDesc : String :=
  "Google Docs & Drive for robin.cannon@gmail.com. Use account parameter \x27robin.cannon@gmail.com\x27 with gdocs-* tools. Contains personal docs, creative writing drafts, and mixed-use content."

/-- `AdapterRegistry.syncSourcesToDb`: upsert one source row per enabled
adapter, synthesize the per-account logical Google sources, and ensure the
hard-wired routing rules for the Google, Notion and digest adapters. -/
def syncSourcesToDb (s : Store) (adapters : List AdapterState) : Store :=
  let s1 := adapters.foldl (fun st a =>
    if a.cfg.enabled then
      upsertSource st a.cfg.id a.cfg.name a.cfg.description (adapterToolNames a) (adapterResourceUris a)
    else st) s
  let s2 :=
    if adapters.any (fun a => a.cfg.id == "gdocs" && a.cfg.enabled) then
      match adapters.find? (fun a => a.cfg.id == "gdocs") with
      | none => s1
      | some g =>
          let t1 := upsertSource s1 "gdocs-work" "Google Workspace (Work)" gdocsWorkDesc
            (adapterToolNames g) ""
          let t2 := upsertSource t1 "gdocs-personal" "Google Workspace (Personal)" gdocsPersonalDesc
            (adapterToolNames g) ""
          let t3 := ensureRule t2 "product-and-project-strategy" "gdocs-work"
            "Work Google Docs may contain meeting notes and project docs (use account: robin@knapsack.cloud)"
          let t4 := ensureRule t3 "code" "gdocs-work"
            "Work Google Docs may contain technical specs and design docs (use account: robin@knapsack.cloud)"
          let t5 := ensureRule t4 "creative-writing" "gdocs-personal"
            "Personal Google Docs may contain writing drafts (use account: robin.cannon@gmail.com)"
          let t6 := ensureRule t5 "research" "gdocs-personal"
            "Personal Google Docs may contain research notes (use account: robin.cannon@gmail.com)"
          ensureRule t6 "general" "gdocs-personal"
            "Personal Google Docs for general documents (use account: robin.cannon@gmail.com)"
    else s1
  let s3 :=
    if adapters.any (fun a => a.cfg.id == "notion-work" && a.cfg.enabled) then
      let t1 := ensureRule s2 "product-and-project-strategy" "notion-work"
        "Work Notion contains project docs, specs, and team knowledge base"
      ensureRule t1 "code" "notion-work"
        "Work Notion may contain technical specs, architecture docs, and engineering decisions"
    else s2
  let s4 :=
    if adapters.any (fun a => a.cfg.id == "notion-personal" && a.cfg.enabled) then
      let t1 := ensureRule s3 "creative-writing" "notion-personal"
        "Personal Notion contains fiction planning, world-building notes, and writing drafts"
      let t2 := ensureRule t1 "static-drift" "notion-personal"
        "Personal Notion may contain Static Drift planning and story notes"
      let t3 := ensureRule t2 "research" "notion-personal"
        "Personal Notion contains research notes, collected references, and project planning"
      let t4 := ensureRule t3 "general" "notion-personal"
        "Personal Notion for todos, scheduling, personal projects, and general notes"
      ensureRule t4 "personal-brand" "notion-personal"
        "Personal Notion may contain content planning and personal project notes"
    else s3
  if adapters.any (fun a => a.cfg.id == "digest" && a.cfg.enabled) then
    let t1 := ensureRule s4 "research" "digest"
      "Content digests provide curated insights from PM and industry blogs"
    ensureRule t1 "general" "digest"
      "Content digests may contain relevant curated knowledge snippets"
  else s4

/-- The tail of `AdapterRegistry.ensureInitialized` (registry.ts): after all
adapters settle it calls `invalidateSourceCache()` and then writes the merged
catalog with `syncSourcesToDb` — these are the only cache invalidations on
this path. -/
def ensureInitializedEffects (s : Store) (adapters : List AdapterState) : Store × List CacheAction :=
  (syncSourcesToDb s adapters, [CacheAction.sourceMap])

/-! ## Schema migration sequencer (db.ts initSchema)

Every migration below mirrors one named function of db.ts and is translated
to a `Store → Store` function.  Table creation (`CREATE TABLE IF NOT EXISTS`)
and the analytics schema touch no modelled data and are omitted; the FTS
virtual table is tracked by the `hasFts` flag. -/

/-- `INSERT OR IGNORE` into `sources`: skipped when the id exists. -/
def insertSourceOrIgnore (s : Store) (id name description tools resources : String) : Store :=
  if s.sources.any (fun src => src.id == id) then s
  else
    { s with sources := s.sources ++
        [{ id := id, name := name, description := description,
           tools := tools, resources := resources }] }

/-- `INSERT OR IGNORE` into `source_rules`: skipped when the
`UNIQUE(context, source_id)` constraint — or, once present, the
`UNIQUE(context, priority)` constraint — would be violated. -/
def insertRuleOrIgnore (s : Store) (context sourceId : String) (priority : Int) (reason : String) : Store :=
  if s.rules.any (fun r => r.context == context && r.sourceId == sourceId) then s
  else if s.hasPriorityUnique &&
      s.rules.any (fun r => r.context == context && r.priority == priority) then s
  else
    { s with
      rules := s.rules ++
        [({ id := s.nextId, context := context, sourceId := sourceId,
            priority := priority, reason := reason } : Rule)],
      nextId := s.nextId + 1 }

/-- `INSERT OR IGNORE` into `contexts`: skipped when the name exists. -/
def insertContextOrIgnore (s : Store) (name description : String) : Store :=
  if s.contexts.any (fun k => k.name == name) then s
  else { s with contexts := s.contexts ++ [({ name := name, description := description } : Ctx)] }

/-- The shared body of the stale-source removals: capture the contexts that
reference the source, delete its rules and the source row, then compact each
affected context. -/
def removeSourceAndRules (s : Store) (id : String) : Store :=
  let affected := distinctStrings ((s.rules.filter (fun r => r.sourceId == id)).map (·.context))
  let s1 := { s with
    rules := s.rules.filter (fun r => !(r.sourceId == id)),
    sources := s.sources.filter (fun src => !(src.id == id)) }
  affected.foldl (fun st c => compactPriorities st c) s1

/-- Compact every context that has rules (`SELECT DISTINCT context`). -/
def compactAllContexts (s : Store) : Store :=
  (distinctStrings (s.rules.map (·.context))).foldl (fun st c => compactPriorities st c) s

/-- db.ts `migrateSourceRulesConstraint`: once the `UNIQUE(context, priority)`
constraint is present this is a no-op; otherwise compact all contexts and
rebuild the table with the constraint (rows and ids are preserved). -/
def migrateSourceRulesConstraint (s : Store) : Store :=
  if s.hasPriorityUnique then s
  else { compactAllContexts s with hasPriorityUnique := true }

/-- db.ts `seedDefaultSources`: seed the default sources and rules on a fresh
store only. -/
def seedDefaultSources (s : Store) : Store :=
  if !s.sources.isEmpty then s
  else
    let t1 := insertSourceOrIgnore s "kb-notes" "Knowledge Base Notes"
      "Personal notes with full-text search"
      "create-note,search-notes,get-note,update-note,delete-note" "robin://kb/tags,robin://kb/stats"
    let t2 := insertSourceOrIgnore t1 "kb-bookmarks" "Knowledge Base Bookmarks"
      "Saved URLs and references" "save-bookmark,search-bookmarks,delete-bookmark" ""
    let t3 := insertSourceOrIgnore t2 "writings" "Personal Writings"
      "robin-cannon.com (Substack) — website, blog posts, LinkedIn profile, and writing sections (Shiny Toy Robots, Alternate Frequencies)"
      ""
      "robin://writings/website,robin://writings/blog-posts,robin://writings/linkedin,robin://writings/shiny-toy-robots,robin://writings/alternate-frequencies"
    let t4 := insertSourceOrIgnore t3 "github" "GitHub"
      "GitHub repo search and API access" "github-search-repos,http-fetch" ""
    let t5 := insertSourceOrIgnore t4 "vault" "Creative Vault"
      "StaticDrift fiction universe - private creative writing repo"
      "vault-read-file,vault-list-dir" "robin://vault/structure"
    let r1 := insertRuleOrIgnore t5 "code" "github" 1
      "GitHub is the primary source for code, repos, and open-source references"
    let r2 := insertRuleOrIgnore r1 "code" "kb-bookmarks" 2
      "Bookmarks may contain saved technical references"
    let r3 := insertRuleOrIgnore r2 "code" "kb-notes" 3
      "Notes may contain code snippets or technical decisions"
    let r4 := insertRuleOrIgnore r3 "product-and-project-strategy" "kb-notes" 1
      "Notes may contain meeting notes or project context"
    let r5 := insertRuleOrIgnore r4 "creative-writing" "vault" 1
      "The creative vault is the primary source for fiction and creative work"
    let r6 := insertRuleOrIgnore r5 "creative-writing" "writings" 2
      "Shiny Toy Robots and Alternate Frequencies sections contain published creative writing"
    let r7 := insertRuleOrIgnore r6 "creative-writing" "kb-notes" 3
      "Notes may contain story ideas or writing drafts"
    let r8 := insertRuleOrIgnore r7 "static-drift" "vault" 1
      "The StaticDrift folder in the creative vault is the canonical source for the Static Drift universe"
    let r9 := insertRuleOrIgnore r8 "static-drift" "writings" 2
      "Shiny Toy Robots and Alternate Frequencies may contain related creative pieces"
    let r10 := insertRuleOrIgnore r9 "static-drift" "kb-notes" 3
      "Notes may contain world-building ideas or story planning"
    let r11 := insertRuleOrIgnore r10 "personal-brand" "writings" 1
      "Website and blog are the canonical public presence"
    let r12 := insertRuleOrIgnore r11 "personal-brand" "kb-bookmarks" 2
      "Bookmarks may track published content or press"
    let r13 := insertRuleOrIgnore r12 "research" "kb-notes" 1
      "Notes are the primary place to store research findings"
    let r14 := insertRuleOrIgnore r13 "research" "kb-bookmarks" 2
      "Bookmarks save reference material"
    let r15 := insertRuleOrIgnore r14 "research" "github" 3
      "GitHub repos can be research references"
    let r16 := insertRuleOrIgnore r15 "general" "kb-notes" 1
      "Notes are the most versatile knowledge store"
    insertRuleOrIgnore r16 "general" "kb-bookmarks" 2
      "Bookmarks provide quick references"

/-- db.ts `seedDefaultContexts`: seed the default contexts on a fresh store only. -/
def seedDefaultContexts (s : Store) : Store :=
  if !s.contexts.isEmpty then s
  else
    let t1 := insertContextOrIgnore s "code"
      "Context for writing, reviewing, or analyzing application code and engineering topics"
    let t2 := insertContextOrIgnore t1 "product-and-project-strategy"
      "Product strategy, roadmaps, and project tracking — use external tools (Linear, work Notion) if available"
    let t3 := insertContextOrIgnore t2 "creative-writing"
      "Fiction writing, story development, and creative composition"
    let t4 := insertContextOrIgnore t3 "static-drift"
      "The Static Drift speculative fiction universe — worldbuilding, stories, and lore"
    let t5 := insertContextOrIgnore t4 "personal-brand"
      "Public web presence, published writing, and professional profile"
    let t6 := insertContextOrIgnore t5 "research"
      "Research notes, references, and information gathering"
    insertContextOrIgnore t6 "general"
      "Catch-all context for general knowledge queries and tasks"

/-- db.ts `migrateRemoveStaleSourcesV1`: remove the two stale sources (and
their rules, compacting the affected contexts) if still present. -/
def migrateRemoveStaleSourcesV1 (s : Store) : Store :=
  let staleIds := ["writings-static-drift", "tom-cannon-research"]
  let existing := s.sources.filter (fun src => staleIds.contains src.id)
  if existing.isEmpty then s
  else existing.foldl (fun st src => removeSourceAndRules st src.id) s

/-- The current description of the `writings` source. -/
def writingsNewDesc : String :=
  "robin-cannon.com (Substack) — website, blog posts, LinkedIn profile, and writing sections (Shiny Toy Robots, Alternate Frequencies)"

/-- db.ts `migrateWritingsDescriptionV1`: reword the `writings` description
unless already current. -/
def migrateWritingsDescriptionV1 (s : Store) : Store :=
  match s.sources.find? (fun src => src.id == "writings") with
  | none => s
  | some row =>
      if row.description == writingsNewDesc then s
      else
        { s with sources := s.sources.map (fun src =>
            if src.id == "writings" then { src with description := writingsNewDesc } else src) }

/-- The current description of the product-and-project-strategy context. -/
def ppsDesc : String :=
  "Product strategy, roadmaps, and project tracking — use external tools (Linear, work Notion) if available"

/-- db.ts `migrateRenameProjectManagementContextV1`: rename the
`project-management` context, moving its rules, if still present. -/
def migrateRenameProjectManagementContextV1 (s : Store) : Store :=
  if !(s.contexts.any (fun k => k.name == "project-management")) then s
  else
    let s1 := insertContextOrIgnore s "product-and-project-strategy" ppsDesc
    let s2 : Store := { s1 with rules := s1.rules.map (fun r =>
        if r.context == "project-management" then
          { r with context := "product-and-project-strategy" }
        else r) }
    { s2 with contexts := s2.contexts.filter (fun k => !(k.name == "project-management")) }

/-- db.ts `migrateProductStrategyDescriptionV2`: reword the context
description only when it still matches one of the known stale values. -/
def migrateProductStrategyDescriptionV2 (s : Store) : Store :=
  let staleDescs := [
    "Product strategy, vision documents, roadmaps, and project tracking via Notion and Google Docs",
    "Product strategy, vision documents, roadmaps, and project tracking via Linear, Notion, and Google Docs"]
  match s.contexts.find? (fun k => k.name == "product-and-project-strategy") with
  | none => s
  | some row =>
      if !(staleDescs.contains row.description) then s
      else
        { s with contexts := s.contexts.map (fun k =>
            if k.name == "product-and-project-strategy" then { k with description := ppsDesc } else k) }

/-- db.ts `migrateRemoveWorkSourcesV2`: remove the work integration sources
(and their rules, compacting) if still present. -/
def migrateRemoveWorkSourcesV2 (s : Store) : Store :=
  let staleIds := ["linear", "notion-work", "gdocs-work"]
  let existing := s.sources.filter (fun src => staleIds.contains src.id)
  if existing.isEmpty then s
  else existing.foldl (fun st src => removeSourceAndRules st src.id) s

/-- The `reorder` closure inside `migrateExternalHintSourcesToDbV3`: order the
rules of a context as in `desiredOrder` (appending leftovers), then assign
temporary negative priorities followed by the final `1..N`, keyed by rule id. -/
def migReorderV3 (s : Store) (c : String) (desired : List String) : Store :=
  let rules := sortRules (rulesIn s c)
  let chosen := desired.filterMap (fun sid => rules.find? (fun r => r.sourceId == sid))
  let ordered := chosen ++ rules.filter (fun r => !(chosen.any (fun o => o.id == r.id)))
  let ids := ordered.map (·.id)
  let s1 := applyIdPhase (fun i => -((i : Int) + 1)) s ids 0
  applyIdPhase (fun i => (i : Int) + 1) s1 ids 0

/-- db.ts `migrateExternalHintSourcesToDbV3`: guarded by the presence of the
`ext-linear` source; otherwise remove the old work sources, create the
external hint sources and rules, and reorder the four affected contexts. -/
def migrateExternalHintSourcesToDbV3 (s : Store) : Store :=
  if s.sources.any (fun src => src.id == "ext-linear") then s
  else
    let s0 := (["linear", "notion-work", "gdocs-work"]).foldl
      (fun st id => removeSourceAndRules st id) s
    let t1 := insertSourceOrIgnore s0 "ext-linear" "Linear"
      "Issues, sprints, and project tracking via separate MCP server" "" ""
    let t2 := insertSourceOrIgnore t1 "ext-notion-work" "Notion (Work)"
      "Work Notion workspace — project docs, specs, and team knowledge" "" ""
    let t3 := insertSourceOrIgnore t2 "ext-gdocs-work" "Google Docs (Work)"
      "Work Google Workspace — meeting notes and project docs" "" ""
    let r1 := insertRuleOrIgnore t3 "product-and-project-strategy" "ext-linear" 100
      "Check for issues, sprints, and project tracking"
    let r2 := insertRuleOrIgnore r1 "product-and-project-strategy" "ext-notion-work" 101
      "Check for project docs, specs, and team knowledge base"
    let r3 := insertRuleOrIgnore r2 "product-and-project-strategy" "ext-gdocs-work" 102
      "Check for meeting notes and project docs"
    let r4 := insertRuleOrIgnore r3 "code" "ext-linear" 100
      "Check for engineering issues and tech specs"
    let r5 := insertRuleOrIgnore r4 "code" "ext-notion-work" 101
      "Check for technical specs and architecture docs"
    let r6 := insertRuleOrIgnore r5 "code" "ext-gdocs-work" 102
      "Check for technical specs and design docs"
    let r7 := insertRuleOrIgnore r6 "research" "ext-notion-work" 100
      "Check for research docs and references"
    let r8 := insertRuleOrIgnore r7 "research" "ext-gdocs-work" 101
      "Check for research notes"
    let r9 := insertRuleOrIgnore r8 "general" "ext-linear" 100
      "Check for work context and project status"
    let r10 := insertRuleOrIgnore r9 "general" "ext-notion-work" 101
      "Check for work docs and knowledge base"
    let r11 := insertRuleOrIgnore r10 "general" "ext-gdocs-work" 102
      "Check for work docs and notes"
    let q1 := migReorderV3 r11 "product-and-project-strategy"
      ["ext-linear", "ext-notion-work", "ext-gdocs-work", "kb-notes"]
    let q2 := migReorderV3 q1 "code"
      ["github", "ext-linear", "ext-notion-work", "ext-gdocs-work", "kb-bookmarks", "kb-notes"]
    let q3 := migReorderV3 q2 "research"
      ["kb-notes", "kb-bookmarks", "github", "ext-notion-work", "ext-gdocs-work"]
    migReorderV3 q3 "general"
      ["kb-notes", "kb-bookmarks", "ext-linear", "ext-notion-work", "ext-gdocs-work"]

/-- `UPDATE source_rules SET reason = ? WHERE source_id = ? AND context = ?`. -/
def updateReason (s : Store) (reason sourceId context : String) : Store :=
  { s with rules := s.rules.map (fun r =>
      if r.sourceId == sourceId && r.context == context then { r with reason := reason } else r) }

/-- db.ts `migrateExternalHintReasonsV4`: guarded by sampling the reason of
the (code, ext-linear) rule; otherwise rewrite all external hint reasons. -/
def migrateExternalHintReasonsV4 (s : Store) : Store :=
  match (s.rules.filter (fun r => r.sourceId == "ext-linear" && r.context == "code")).head? with
  | none => s
  | some sample =>
      if sample.reason == "Check for engineering issues and tech specs" then s
      else
        let t1 := updateReason s "Check for issues, sprints, and project tracking"
          "ext-linear" "product-and-project-strategy"
        let t2 := updateReason t1 "Check for project docs, specs, and team knowledge base"
          "ext-notion-work" "product-and-project-strategy"
        let t3 := updateReason t2 "Check for meeting notes and project docs"
          "ext-gdocs-work" "product-and-project-strategy"
        let t4 := updateReason t3 "Check for engineering issues and tech specs"
          "ext-linear" "code"
        let t5 := updateReason t4 "Check for technical specs and architecture docs"
          "ext-notion-work" "code"
        let t6 := updateReason t5 "Check for technical specs and design docs"
          "ext-gdocs-work" "code"
        let t7 := updateReason t6 "Check for research docs and references"
          "ext-notion-work" "research"
        let t8 := updateReason t7 "Check for research notes"
          "ext-gdocs-work" "research"
        let t9 := updateReason t8 "Check for work context and project status"
          "ext-linear" "general"
        let t10 := updateReason t9 "Check for work docs and knowledge base"
          "ext-notion-work" "general"
        updateReason t10 "Check for work docs and notes"
          "ext-gdocs-work" "general"

/-- db.ts `migrateRemoveOrphanGdocsSourceV5`: drop the orphan `gdocs` source
and its rules (no compaction) if still present. -/
def migrateRemoveOrphanGdocsSourceV5 (s : Store) : Store :=
  if !(s.sources.any (fun src => src.id == "gdocs")) then s
  else
    { s with
      rules := s.rules.filter (fun r => !(r.sourceId == "gdocs")),
      sources := s.sources.filter (fun src => !(src.id == "gdocs")) }

/-- Creation of the notes FTS virtual table, guarded by its existence. -/
def ensureFts (s : Store) : Store :=
  if s.hasFts then s else { s with hasFts := true }

/-- db.ts `initSchema`: the full startup migration sequence in source order. -/
def initSchemaModel (s : Store) : Store :=
  ensureFts
    (migrateRemoveOrphanGdocsSourceV5
      (migrateExternalHintReasonsV4
        (migrateExternalHintSourcesToDbV3
          (migrateRemoveWorkSourcesV2
            (migrateProductStrategyDescriptionV2
              (migrateRenameProjectManagementContextV1
                (migrateWritingsDescriptionV1
                  (migrateRemoveStaleSourcesV1
                    (seedDefaultContexts
                      (seedDefaultSources
                        (migrateSourceRulesConstraint s)))))))))))

/-- A fresh database file: empty tables, no `UNIQUE(context, priority)`
constraint yet, no FTS table yet. -/
def emptyStore : Store :=
  { nextId := 1, sources := [], rules := [], contexts := [],
    hasPriorityUnique := false, hasFts := false }

/-- The store as seeded by the first startup. -/
def seededStore : Store := initSchemaModel emptyStore

/-! ## Invariant vocabulary and operation traces -/

/-- Index of the first occurrence of a key in a list (0 when absent). -/
def keyIdx [BEq κ] : List κ → κ → Nat
  | [], _ => 0
  | x :: xs, k => if x == k then 0 else keyIdx xs k + 1

/-- Insert an integer into a sorted list. -/
def insertInt (x : Int) : List Int → List Int
  | [] => [x]
  | y :: ys => if x ≤ y then x :: y :: ys else y :: insertInt x ys

/-- Sort a list of integers ascending. -/
def sortInts (l : List Int) : List Int := l.foldr insertInt []

/-- The contiguous priority sequence `[1, ..., n]`. -/
def rangeInts (n : Nat) : List Int := (List.range n).map (fun (i : Nat) => (i : Int) + 1)

/-- The priorities of the rules of one context, in table order. -/
def prioritiesOf (s : Store) (c : String) : List Int :=
  (rulesIn s c).map (·.priority)

/-- The priorities of context `c` form, as a multiset, exactly the contiguous
sequence `1..N` where `N` is the number of rules of `c`. -/
def contiguousAt (s : Store) (c : String) : Prop :=
  List.Perm (prioritiesOf s c) (rangeInts (prioritiesOf s c).length)

/-- Executable contiguity check over every context that owns a rule. -/
def contigCheck (s : Store) : Bool :=
  (s.rules.map (·.context)).all (fun c =>
    sortInts (prioritiesOf s c) == rangeInts (prioritiesOf s c).length)

/-- Executable well-formedness check: rule ids are pairwise distinct and below
the AUTOINCREMENT counter. -/
def idsOk (s : Store) : Bool :=
  ((s.rules.map (·.id)).Nodup : Bool) && s.rules.all (fun r => r.id < s.nextId)

/-- The structural store invariant: distinct primary keys, a fresh
AUTOINCREMENT counter, and contiguous priorities in every context. -/
structure StoreInv (s : Store) : Prop where
  nodup : (s.rules.map (·.id)).Nodup
  bounded : ∀ r ∈ s.rules, r.id < s.nextId
  contig : ∀ c, contiguousAt s c

/-- One rule-table operation: an upsert through the `set-source-rule` tool (or
the identical `PUT /api/routing` handler), an upsert through the registry
`ensureRule` closure, a delete (followed by compaction) through
`DELETE /api/routing`, or a reorder through `POST /api/routing/reorder`. -/
inductive RuleOp where
  | set (context sourceId reason : String)
  | ensure (context sourceId reason : String)
  | del (context sourceId : String)
  | reorder (context : String) (sourceIds : List String)

/-- Apply one rule operation (rejected requests leave the store unchanged). -/
def applyOp (s : Store) : RuleOp → Store
  | .set context sourceId reason => (setSourceRule s context sourceId reason).store
  | .ensure context sourceId reason => ensureRule s context sourceId reason
  | .del context sourceId => (deleteRule s context sourceId).store
  | .reorder context sourceIds => (reorderRules s context sourceIds).store

/-- Apply a sequence of rule operations. -/
def applyOps (s : Store) (ops : List RuleOp) : Store := ops.foldl applyOp s

/-- Frame relation for the renumbering operations: the row keeps its id,
context, source and reason, and rows outside context `c` are untouched. -/
def frameEq (c : String) (a b : Rule) : Prop :=
  b.id = a.id ∧ b.context = a.context ∧ b.sourceId = a.sourceId ∧
    b.reason = a.reason ∧ (a.context ≠ c → b = a)

/-! ## Concrete fixtures for witnesses -/

/-- The Google Workspace adapter configuration from the registry factory. -/
def gdocsCfg : AdapterCfg :=
  { id := "gdocs", name := "Google Workspace", pfx := "gdocs-",
    description := "Google Docs, Drive, and Workspace via google-mcp-server",
    enabled := true,
    toolFilter := some ["docs_document_get", "docs_document_create", "docs_document_update",
      "drive_files_list", "drive_files_search", "drive_file_get_metadata",
      "drive_markdown_upload", "drive_markdown_replace", "accounts_list"],
    writeTools := some ["docs_document_create", "docs_document_update",
      "drive_markdown_upload", "drive_markdown_replace"] }

/-- A Google adapter whose initialization succeeded with two discovered tools. -/
def gdocsAdapter : AdapterState :=
  { cfg := gdocsCfg,
    initResult := .ok
      ([{ name := "docs_document_get", isWrite := false },
        { name := "docs_document_update", isWrite := true }], []) }

/-- A demo adapter whose initialization succeeded. -/
def alphaAdapter : AdapterState :=
  { cfg := { id := "alpha", name := "Alpha", pfx := "alpha-", description := "demo up",
             enabled := true, toolFilter := none, writeTools := none },
    initResult := .ok
      ([{ name := "read-item", isWrite := false },
        { name := "write-item", isWrite := true }], []) }

/-- A demo adapter whose initialization always throws. -/
def betaAdapter : AdapterState :=
  { cfg := { id := "beta", name := "Beta", pfx := "beta-", description := "demo down",
             enabled := true, toolFilter := none, writeTools := none },
    initResult := .error "connection refused" }

/-! ## Lemmas about the list helpers -/

theorem insertByPriority_perm (r : Rule) (l : List Rule) :
    List.Perm (insertByPriority r l) (r :: l) := by
  induction l with
  | nil => simp [insertByPriority]
  | cons x xs ih =>
      simp only [insertByPriority]
      split
      · exact List.Perm.refl _
      · exact (List.Perm.cons x ih).trans (List.Perm.swap r x xs)

theorem sortRules_perm (l : List Rule) : List.Perm (sortRules l) l := by
  induction l with
  | nil => simp [sortRules]
  | cons x xs ih =>
      simpa [sortRules] using (insertByPriority_perm x (sortRules xs)).trans (ih.cons x)

theorem insertByPriority_sorted {l : List Rule} (r : Rule)
    (h : List.Pairwise (fun a b : Rule => a.priority ≤ b.priority) l) :
    List.Pairwise (fun a b : Rule => a.priority ≤ b.priority) (insertByPriority r l) := by
  induction l with
  | nil => simp [insertByPriority]
  | cons x xs ih =>
      simp only [insertByPriority]
      split
      · rename_i hle
        refine List.Pairwise.cons ?_ h
        intro b hb
        rcases List.mem_cons.mp hb with rfl | hb
        · exact hle
        · exact le_trans hle ((List.pairwise_cons.mp h).1 b hb)
      · rename_i hgt
        have hx := List.pairwise_cons.mp h
        refine List.Pairwise.cons ?_ (ih hx.2)
        intro b hb
        rcases List.mem_cons.mp ((insertByPriority_perm r xs).mem_iff.mp hb) with rfl | hb
        · exact le_of_not_le hgt
        · exact hx.1 b hb

theorem sortRules_sorted (l : List Rule) :
    List.Pairwise (fun a b : Rule => a.priority ≤ b.priority) (sortRules l) := by
  induction l with
  | nil => simp [sortRules]
  | cons x xs ih => exact insertByPriority_sorted x ih

theorem insertStr_perm (x : String) (l : List String) :
    List.Perm (insertStr x l) (x :: l) := by
  induction l with
  | nil => simp [insertStr]
  | cons y ys ih =>
      simp only [insertStr]
      split
      · exact List.Perm.refl _
      · exact (List.Perm.cons y ih).trans (List.Perm.swap x y ys)

theorem sortStrings_perm (l : List String) : List.Perm (sortStrings l) l := by
  induction l with
  | nil => simp [sortStrings]
  | cons x xs ih =>
      simpa [sortStrings] using (insertStr_perm x (sortStrings xs)).trans (ih.cons x)

theorem charsLe_total (as bs : List Char) : charsLe as bs = true ∨ charsLe bs as = true := by
  induction as generalizing bs with
  | nil => left; rfl
  | cons x xs ih =>
      cases bs with
      | nil => right; rfl
      | cons y ys =>
          simp only [charsLe]
          by_cases h1 : x.toNat < y.toNat
          · left
            simp [h1]
          · by_cases h2 : y.toNat < x.toNat
            · right
              simp [h1, h2]
            · rcases ih ys with h | h
              · left
                simp [h1, h2, h]
              · right
                simp [h1, h2, h]

theorem charsLe_trans {as bs cs : List Char} (h1 : charsLe as bs = true)
    (h2 : charsLe bs cs = true) : charsLe as cs = true := by
  induction as generalizing bs cs with
  | nil => rfl
  | cons x xs ih =>
      cases bs with
      | nil => simp [charsLe] at h1
      | cons y ys =>
          cases cs with
          | nil => simp [charsLe] at h2
          | cons z zs =>
              simp only [charsLe] at h1 h2 ⊢
              by_cases hxy : x.toNat < y.toNat
              · by_cases hyz : y.toNat < z.toNat
                · simp [show x.toNat < z.toNat by omega]
                · by_cases hzy : z.toNat < y.toNat
                  · simp [hyz, hzy] at h2
                  · simp [show x.toNat < z.toNat by omega]
              · by_cases hyx : y.toNat < x.toNat
                · simp [hxy, hyx] at h1
                · simp only [hxy, hyx, if_false] at h1
                  by_cases hyz : y.toNat < z.toNat
                  · simp [show x.toNat < z.toNat by omega]
                  · by_cases hzy : z.toNat < y.toNat
                    · simp [hyz, hzy] at h2
                    · simp only [hyz, hzy, if_false] at h2
                      have hxz1 : ¬x.toNat < z.toNat := by omega
                      have hxz2 : ¬z.toNat < x.toNat := by omega
                      simp only [hxz1, hxz2, if_false]
                      exact ih h1 h2

theorem charsLe_antisymm {as bs : List Char} (h1 : charsLe as bs = true)
    (h2 : charsLe bs as = true) : as = bs := by
  induction as generalizing bs with
  | nil =>
      cases bs with
      | nil => rfl
      | cons y ys => simp [charsLe] at h2
  | cons x xs ih =>
      cases bs with
      | nil => simp [charsLe] at h1
      | cons y ys =>
          simp only [charsLe] at h1 h2
          by_cases hxy : x.toNat < y.toNat
          · simp [show ¬y.toNat < x.toNat by omega, hxy] at h2
          · by_cases hyx : y.toNat < x.toNat
            · simp [hxy, hyx] at h1
            · simp only [hxy, hyx, if_false] at h1 h2
              have hx : x = y := by
                have h3 : x.toNat = y.toNat := by omega
                exact Char.ext (UInt32.ext h3)
              rw [hx, ih h1 h2]

theorem strLeB_total (a b : String) : strLeB a b = true ∨ strLeB b a = true :=
  charsLe_total a.data b.data

theorem strLeB_trans {a b c : String} (h1 : strLeB a b = true) (h2 : strLeB b c = true) :
    strLeB a c = true := charsLe_trans h1 h2

theorem strLeB_antisymm {a b : String} (h1 : strLeB a b = true) (h2 : strLeB b a = true) :
    a = b := String.ext (charsLe_antisymm h1 h2)

theorem insertStr_sorted {l : List String} (x : String)
    (h : List.Pairwise (fun a b => strLeB a b = true) l) :
    List.Pairwise (fun a b => strLeB a b = true) (insertStr x l) := by
  induction l with
  | nil => simp [insertStr]
  | cons y ys ih =>
      simp only [insertStr]
      split
      · rename_i hle
        refine List.Pairwise.cons ?_ h
        intro b hb
        rcases List.mem_cons.mp hb with rfl | hb
        · exact hle
        · exact strLeB_trans hle ((List.pairwise_cons.mp h).1 b hb)
      · rename_i hgt
        have hy := List.pairwise_cons.mp h
        refine List.Pairwise.cons ?_ (ih hy.2)
        intro b hb
        rcases List.mem_cons.mp ((insertStr_perm x ys).mem_iff.mp hb) with rfl | hb
        · rcases strLeB_total y b with hh | hh
          · exact hh
          · exact absurd hh hgt
        · exact hy.1 b hb

theorem sortStrings_sorted (l : List String) :
    List.Pairwise (fun a b => strLeB a b = true) (sortStrings l) := by
  induction l with
  | nil => simp [sortStrings]
  | cons x xs ih => exact insertStr_sorted x ih

/-- Two string lists sort equal exactly when they are permutations. -/
theorem sortStrings_eq_iff {l₁ l₂ : List String} :
    sortStrings l₁ = sortStrings l₂ ↔ List.Perm l₁ l₂ := by
  constructor
  · intro h
    exact ((sortStrings_perm l₁).symm.trans (h ▸ List.Perm.refl _)).trans (sortStrings_perm l₂)
  · intro h
    haveI : IsAntisymm String (fun a b => strLeB a b = true) :=
      ⟨fun a b h1 h2 => strLeB_antisymm h1 h2⟩
    exact List.eq_of_perm_of_sorted
      (((sortStrings_perm l₁).trans h).trans (sortStrings_perm l₂).symm)
      (sortStrings_sorted l₁) (sortStrings_sorted l₂)

theorem insertInt_perm (x : Int) (l : List Int) :
    List.Perm (insertInt x l) (x :: l) := by
  induction l with
  | nil => simp [insertInt]
  | cons y ys ih =>
      simp only [insertInt]
      split
      · exact List.Perm.refl _
      · exact (List.Perm.cons y ih).trans (List.Perm.swap x y ys)

theorem sortInts_perm (l : List Int) : List.Perm (sortInts l) l := by
  induction l with
  | nil => simp [sortInts]
  | cons x xs ih =>
      simpa [sortInts] using (insertInt_perm x (sortInts xs)).trans (ih.cons x)

theorem insertInt_sorted {l : List Int} (x : Int)
    (h : List.Pairwise (· ≤ ·) l) :
    List.Pairwise (· ≤ ·) (insertInt x l) := by
  induction l with
  | nil => simp [insertInt]
  | cons y ys ih =>
      simp only [insertInt]
      split
      · rename_i hle
        refine List.Pairwise.cons ?_ h
        intro b hb
        rcases List.mem_cons.mp hb with rfl | hb
        · exact hle
        · exact le_trans hle ((List.pairwise_cons.mp h).1 b hb)
      · rename_i hgt
        have hy := List.pairwise_cons.mp h
        refine List.Pairwise.cons ?_ (ih hy.2)
        intro b hb
        rcases List.mem_cons.mp ((insertInt_perm x ys).mem_iff.mp hb) with rfl | hb
        · exact le_of_not_le hgt
        · exact hy.1 b hb

theorem sortInts_sorted (l : List Int) :
    List.Pairwise (· ≤ ·) (sortInts l) := by
  induction l with
  | nil => simp [sortInts]
  | cons x xs ih => exact insertInt_sorted x ih

theorem rangeInts_sorted (n : Nat) : List.Pairwise (· ≤ ·) (rangeInts n) := by
  rw [rangeInts, List.pairwise_map]
  refine (List.pairwise_lt_range n).imp ?_
  intro a b h
  omega

theorem mem_rangeInts {x : Int} {n : Nat} : x ∈ rangeInts n ↔ 1 ≤ x ∧ x ≤ n := by
  simp only [rangeInts, List.mem_map, List.mem_range]
  constructor
  · rintro ⟨i, hi, rfl⟩
    refine ⟨by omega, by omega⟩
  · rintro ⟨h1, h2⟩
    refine ⟨(x - 1).toNat, by omega, by omega⟩

theorem rangeInts_length (n : Nat) : (rangeInts n).length = n := by
  rw [rangeInts, List.length_map, List.length_range]

theorem rangeInts_succ (n : Nat) : rangeInts (n + 1) = rangeInts n ++ [(n : Int) + 1] := by
  simp [rangeInts, List.range_succ]

/-- A list sorts to `[1, ..., n]` exactly when it is a permutation of it. -/
theorem sortInts_eq_rangeInts_iff {l : List Int} {n : Nat} :
    sortInts l = rangeInts n ↔ List.Perm l (rangeInts n) := by
  constructor
  · intro h
    exact (sortInts_perm l).symm.trans (h ▸ List.Perm.refl _)
  · intro h
    exact List.eq_of_perm_of_sorted ((sortInts_perm l).trans h)
      (sortInts_sorted l) (rangeInts_sorted n)

theorem keyIdx_cons_self [BEq κ] [LawfulBEq κ] (k : κ) (ks : List κ) :
    keyIdx (k :: ks) k = 0 := by
  simp [keyIdx]

theorem keyIdx_cons_ne [BEq κ] [LawfulBEq κ] {x k : κ} (ks : List κ) (h : x ≠ k) :
    keyIdx (x :: ks) k = keyIdx ks k + 1 := by
  simp [keyIdx, h]

/-- On a duplicate-free key list, mapping every key to its index enumerates
`0, ..., n-1`. -/
theorem map_keyIdx_nodup [BEq κ] [LawfulBEq κ] {ks : List κ} (h : ks.Nodup) :
    ks.map (keyIdx ks) = List.range ks.length := by
  induction ks with
  | nil => simp
  | cons k ks ih =>
      have hk : k ∉ ks := (List.nodup_cons.mp h).1
      have htl : ks.Nodup := (List.nodup_cons.mp h).2
      have hmap : ks.map (keyIdx (k :: ks)) = (ks.map (keyIdx ks)).map (· + 1) := by
        rw [List.map_map]
        refine List.map_congr_left ?_
        intro x hx
        have hxk : k ≠ x := fun hxe => hk (hxe ▸ hx)
        exact keyIdx_cons_ne ks hxk
      rw [List.map_cons, keyIdx_cons_self, hmap, ih htl, List.length_cons,
        List.range_succ_eq_map]

theorem distinctAux_length_le (seen : List String) (l : List String) :
    (distinctAux seen l).length ≤ l.length := by
  induction l generalizing seen with
  | nil => simp [distinctAux]
  | cons x xs ih =>
      simp only [distinctAux]
      split
      · exact le_trans (ih seen) (Nat.le_succ _)
      · simpa using ih (x :: seen)

/-- The `new Set(xs).size === xs.length` duplicate test: the deduplicated
length equals the original length exactly when the list is duplicate-free and
disjoint from the already-seen accumulator. -/
theorem distinctAux_length_eq_iff (seen : List String) (l : List String) :
    (distinctAux seen l).length = l.length ↔ (l.Nodup ∧ ∀ x ∈ l, x ∉ seen) := by
  induction l generalizing seen with
  | nil => simp [distinctAux]
  | cons x xs ih =>
      simp only [distinctAux]
      split
      · rename_i hmem
        have hle := distinctAux_length_le seen xs
        simp only [List.length_cons]
        constructor
        · intro h
          exact absurd h (by omega)
        · rintro ⟨-, hall⟩
          exact absurd (by simpa using hmem) (fun hm => (hall x (List.mem_cons_self x xs)) hm)
      · rename_i hmem
        simp only [List.length_cons, Nat.add_right_cancel_iff]
        rw [ih (x :: seen)]
        constructor
        · rintro ⟨hnd, hall⟩
          refine ⟨List.nodup_cons.mpr ⟨?_, hnd⟩, ?_⟩
          · intro hx
            exact (hall x hx) (List.mem_cons_self x seen)
          · intro y hy
            rcases List.mem_cons.mp hy with rfl | hy
            · simpa using hmem
            · intro hys
              exact (hall y hy) (List.mem_cons_of_mem x hys)
        · rintro ⟨hnd, hall⟩
          have hx := List.nodup_cons.mp hnd
          refine ⟨hx.2, ?_⟩
          intro y hy hmem2
          rcases List.mem_cons.mp hmem2 with rfl | hys
          · exact hx.1 hy
          · exact hall y (List.mem_cons_of_mem x hy) hys

theorem distinctStrings_length_eq_iff (l : List String) :
    (distinctStrings l).length = l.length ↔ l.Nodup := by
  rw [distinctStrings, distinctAux_length_eq_iff]
  simp

theorem foldl_max_mem (p : Int) (l : List Int) : l.foldl max p ∈ p :: l := by
  induction l generalizing p with
  | nil => simp
  | cons x xs ih =>
      simp only [List.foldl_cons]
      rcases List.mem_cons.mp (ih (max p x)) with h | h
      · rw [h]
        rcases max_choice p x with hm | hm
        · rw [hm]; exact List.mem_cons_self _ _
        · rw [hm]; exact List.mem_cons_of_mem _ (List.mem_cons_self _ _)
      · exact List.mem_cons_of_mem _ (List.mem_cons_of_mem _ h)

theorem init_le_foldl_max (p : Int) (l : List Int) : p ≤ l.foldl max p := by
  induction l generalizing p with
  | nil => simp
  | cons y ys ih => exact le_trans (le_max_left p y) (by simpa using ih (max p y))

theorem le_foldl_max {p : Int} {l : List Int} {x : Int} (h : x ∈ p :: l) :
    x ≤ l.foldl max p := by
  induction l generalizing p with
  | nil =>
      have : x = p := by simpa using h
      simp [this]
  | cons y ys ih =>
      simp only [List.foldl_cons]
      rcases List.mem_cons.mp h with rfl | h
      · exact le_trans (le_max_left x y) (init_le_foldl_max _ ys)
      · rcases List.mem_cons.mp h with rfl | h
        · exact le_trans (le_max_right p x) (init_le_foldl_max _ ys)
        · exact ih (List.mem_cons_of_mem _ h)

/-- The maximum priority of a context whose priorities are, as a multiset,
exactly `1..n` is `n` (and `0` for an empty context, via `COALESCE`). -/
theorem maxPriority_of_perm {s : Store} {c : String} {n : Nat}
    (h : List.Perm (prioritiesOf s c) (rangeInts n)) : maxPriority s c = (n : Int) := by
  rw [maxPriority]
  rcases hps : (rulesIn s c).map (·.priority) with _ | ⟨p, ps⟩
  all_goals rw [hps]
  · have hnil : List.Perm ([] : List Int) (rangeInts n) := by
      rwa [prioritiesOf, hps] at h
    have hlen : (rangeInts n).length = 0 := by
      simpa using hnil.length_eq.symm
    have hn : n = 0 := by simpa [rangeInts_length] using hlen
    simp [hn]
  · have hperm : List.Perm (p :: ps) (rangeInts n) := by rwa [prioritiesOf, hps] at h
    have hmem : ps.foldl max p ∈ rangeInts n :=
      hperm.mem_iff.mp (foldl_max_mem p ps)
    have hle : ps.foldl max p ≤ (n : Int) := (mem_rangeInts.mp hmem).2
    have hn1 : 1 ≤ (ps.foldl max p) := (mem_rangeInts.mp hmem).1
    have hnn : 1 ≤ n := by omega
    have hnm : (n : Int) ∈ p :: ps :=
      hperm.symm.mem_iff.mp (mem_rangeInts.mpr ⟨by exact_mod_cast hnn, le_refl _⟩)
    exact le_antisymm hle (le_foldl_max hnm)

/-! ## Characterization of the priority-update passes -/

/-- The id-keyed update pass performs exactly one priority write per listed
id: each listed rule ends at `f (i0 + index)`, all other rules are untouched. -/
theorem applyIdPhase_rules (f : Nat → Int) {rids : List Nat} (hnd : rids.Nodup) :
    ∀ (s : Store) (i0 : Nat),
      (applyIdPhase f s rids i0).rules =
        s.rules.map (fun r =>
          if r.id ∈ rids then { r with priority := f (i0 + keyIdx rids r.id) } else r) := by
  induction rids with
  | nil =>
      intro s i0
      simp [applyIdPhase]
  | cons rid rest ih =>
      intro s i0
      have hni : rid ∉ rest := (List.nodup_cons.mp hnd).1
      have htl := (List.nodup_cons.mp hnd).2
      rw [applyIdPhase, ih htl]
      simp only [setPriorityById, List.map_map]
      refine List.map_congr_left ?_
      intro r _
      simp only [Function.comp_apply]
      by_cases hid : r.id = rid
      · rw [if_pos (show (r.id == rid) = true by simp [hid])]
        rw [if_neg (show ¬({ r with priority := f i0 } : Rule).id ∈ rest from
          fun h => hni (hid ▸ h))]
        rw [if_pos (List.mem_cons.mpr (Or.inl hid))]
        rw [hid, keyIdx_cons_self]
        simp
      · rw [if_neg (show ¬(r.id == rid) = true by simp [hid])]
        by_cases hmem : r.id ∈ rest
        · rw [if_pos hmem, if_pos (List.mem_cons_of_mem _ hmem)]
          rw [keyIdx_cons_ne rest (fun h : rid = r.id => hid h.symm)]
          have harg : i0 + 1 + keyIdx rest r.id = i0 + (keyIdx rest r.id + 1) := by omega
          rw [harg]
        · rw [if_neg hmem, if_neg (show ¬r.id ∈ rid :: rest from by
            intro hc
            rcases List.mem_cons.mp hc with h | h
            · exact hid h
            · exact hmem h)]

theorem applyIdPhase_sources (f : Nat → Int) :
    ∀ (s : Store) (rids : List Nat) (i0 : Nat),
      (applyIdPhase f s rids i0).sources = s.sources := by
  intro s rids
  induction rids generalizing s with
  | nil => intro i0; rfl
  | cons rid rest ih => intro i0; rw [applyIdPhase, ih]; rfl

theorem applyIdPhase_contexts (f : Nat → Int) :
    ∀ (s : Store) (rids : List Nat) (i0 : Nat),
      (applyIdPhase f s rids i0).contexts = s.contexts := by
  intro s rids
  induction rids generalizing s with
  | nil => intro i0; rfl
  | cons rid rest ih => intro i0; rw [applyIdPhase, ih]; rfl

theorem applyIdPhase_nextId (f : Nat → Int) :
    ∀ (s : Store) (rids : List Nat) (i0 : Nat),
      (applyIdPhase f s rids i0).nextId = s.nextId := by
  intro s rids
  induction rids generalizing s with
  | nil => intro i0; rfl
  | cons rid rest ih => intro i0; rw [applyIdPhase, ih]; rfl

theorem applyIdPhase_hasPriorityUnique (f : Nat → Int) :
    ∀ (s : Store) (rids : List Nat) (i0 : Nat),
      (applyIdPhase f s rids i0).hasPriorityUnique = s.hasPriorityUnique := by
  intro s rids
  induction rids generalizing s with
  | nil => intro i0; rfl
  | cons rid rest ih => intro i0; rw [applyIdPhase, ih]; rfl

theorem applyIdPhase_hasFts (f : Nat → Int) :
    ∀ (s : Store) (rids : List Nat) (i0 : Nat),
      (applyIdPhase f s rids i0).hasFts = s.hasFts := by
  intro s rids
  induction rids generalizing s with
  | nil => intro i0; rfl
  | cons rid rest ih => intro i0; rw [applyIdPhase, ih]; rfl

/-- The (context, source)-keyed update pass of the reorder transaction:
each rule of the context whose source is listed ends at `f (i0 + index)`,
every other rule is untouched. -/
theorem applyPhase_rules (c : String) (f : Nat → Int) {sids : List String} (hnd : sids.Nodup) :
    ∀ (s : Store) (i0 : Nat),
      (applyPhase c f s sids i0).rules =
        s.rules.map (fun r =>
          if r.context = c ∧ r.sourceId ∈ sids then
            { r with priority := f (i0 + keyIdx sids r.sourceId) }
          else r) := by
  induction sids with
  | nil =>
      intro s i0
      simp [applyPhase]
  | cons sid rest ih =>
      intro s i0
      have hni : sid ∉ rest := (List.nodup_cons.mp hnd).1
      have htl := (List.nodup_cons.mp hnd).2
      rw [applyPhase, ih htl]
      simp only [setPriorityBySource, List.map_map]
      refine List.map_congr_left ?_
      intro r _
      simp only [Function.comp_apply]
      by_cases hc : r.context = c
      · by_cases hs : r.sourceId = sid
        · rw [if_pos (show (r.context == c && r.sourceId == sid) = true by simp [hc, hs])]
          rw [if_neg (show ¬(({ r with priority := f i0 } : Rule).context = c ∧
              ({ r with priority := f i0 } : Rule).sourceId ∈ rest) from
            fun h => hni (hs ▸ h.2))]
          rw [if_pos (show r.context = c ∧ r.sourceId ∈ sid :: rest from
            ⟨hc, List.mem_cons.mpr (Or.inl hs)⟩)]
          rw [hs, keyIdx_cons_self]
          simp
        · rw [if_neg (show ¬(r.context == c && r.sourceId == sid) = true by simp [hs])]
          by_cases hmem : r.sourceId ∈ rest
          · rw [if_pos ⟨hc, hmem⟩, if_pos ⟨hc, List.mem_cons_of_mem _ hmem⟩]
            rw [keyIdx_cons_ne rest (fun h : sid = r.sourceId => hs h.symm)]
            have harg : i0 + 1 + keyIdx rest r.sourceId = i0 + (keyIdx rest r.sourceId + 1) := by
              omega
            rw [harg]
          · rw [if_neg (show ¬(r.context = c ∧ r.sourceId ∈ rest) from
                fun h => hmem h.2),
              if_neg (show ¬(r.context = c ∧ r.sourceId ∈ sid :: rest) from by
                rintro ⟨-, hin⟩
                rcases List.mem_cons.mp hin with h | h
                · exact hs h
                · exact hmem h)]
      · rw [if_neg (show ¬(r.context == c && r.sourceId == sid) = true by simp [hc])]
        rw [if_neg (fun h => hc h.1), if_neg (fun h => hc h.1)]

theorem applyPhase_sources (c : String) (f : Nat → Int) :
    ∀ (s : Store) (sids : List String) (i0 : Nat),
      (applyPhase c f s sids i0).sources = s.sources := by
  intro s sids
  induction sids generalizing s with
  | nil => intro i0; rfl
  | cons sid rest ih => intro i0; rw [applyPhase, ih]; rfl

theorem applyPhase_contexts (c : String) (f : Nat → Int) :
    ∀ (s : Store) (sids : List String) (i0 : Nat),
      (applyPhase c f s sids i0).contexts = s.contexts := by
  intro s sids
  induction sids generalizing s with
  | nil => intro i0; rfl
  | cons sid rest ih => intro i0; rw [applyPhase, ih]; rfl

theorem applyPhase_nextId (c : String) (f : Nat → Int) :
    ∀ (s : Store) (sids : List String) (i0 : Nat),
      (applyPhase c f s sids i0).nextId = s.nextId := by
  intro s sids
  induction sids generalizing s with
  | nil => intro i0; rfl
  | cons sid rest ih => intro i0; rw [applyPhase, ih]; rfl

/-! ## Compaction and reorder: effect on each context -/

theorem filter_context_map {g : Rule → Rule} (hg : ∀ r, (g r).context = r.context)
    (l : List Rule) (c : String) :
    (l.map g).filter (fun r => r.context == c) = (l.filter (fun r => r.context == c)).map g := by
  rw [List.filter_map]
  congr 1
  refine List.filter_congr ?_
  intro r _
  simp [Function.comp, hg]

theorem filter_and_eq {l : List Rule} {p q : Rule → Bool} (h : ∀ r ∈ l, p r = true → q r = true) :
    l.filter (fun r => p r && q r) = l.filter p := by
  induction l with
  | nil => rfl
  | cons x xs ih =>
      have htl := ih (fun r hr => h r (List.mem_cons_of_mem _ hr))
      by_cases hp : p x = true
      · have hq := h x (List.mem_cons_self _ _) hp
        simp [List.filter_cons, hp, hq, htl]
      · have hp2 : p x = false := by simpa using hp
        simp [List.filter_cons, hp2, htl]

theorem sorted_rulesIn_ids_nodup {s : Store} (hnd : (s.rules.map (·.id)).Nodup) (c : String) :
    ((sortRules (rulesIn s c)).map (·.id)).Nodup := by
  have h1 : ((rulesIn s c).map (·.id)).Nodup :=
    ((List.filter_sublist s.rules).map _).nodup hnd
  exact ((sortRules_perm (rulesIn s c)).map (·.id)).nodup_iff.mpr h1

theorem mem_ids_of_mem_rulesIn {s : Store} {c : String} {r : Rule} (hr : r ∈ rulesIn s c) :
    r.id ∈ (sortRules (rulesIn s c)).map (·.id) :=
  List.mem_map.mpr ⟨r, (sortRules_perm (rulesIn s c)).mem_iff.mpr hr, rfl⟩

theorem not_mem_ids_of_context_ne {s : Store} (hnd : (s.rules.map (·.id)).Nodup)
    {c : String} {r : Rule} (hr : r ∈ s.rules) (hne : r.context ≠ c) :
    r.id ∉ (sortRules (rulesIn s c)).map (·.id) := by
  intro hmem
  obtain ⟨r', hr', hid⟩ := List.mem_map.mp hmem
  have hr'2 : r' ∈ rulesIn s c := (sortRules_perm _).mem_iff.mp hr'
  have hr'mem : r' ∈ s.rules := (List.mem_filter.mp hr'2).1
  have hctx : r'.context = c := by
    have := (List.mem_filter.mp hr'2).2
    simpa using this
  have hrr : r' = r := List.inj_on_of_nodup_map hnd hr'mem hr hid
  exact hne (hrr ▸ hctx)

/-- What `compactPriorities` does to the rule table: every rule of the context
moves to priority `index + 1` in the sorted order, everything else is kept. -/
theorem compact_rules {s : Store} (hnd : (s.rules.map (·.id)).Nodup) (c : String) :
    (compactPriorities s c).rules =
      s.rules.map (fun r =>
        if r.id ∈ (sortRules (rulesIn s c)).map (·.id) then
          { r with priority :=
              (keyIdx ((sortRules (rulesIn s c)).map (·.id)) r.id : Int) + 1 }
        else r) := by
  rw [compactPriorities, applyIdPhase_rules _ (sorted_rulesIn_ids_nodup hnd c)]
  refine List.map_congr_left ?_
  intro r _
  by_cases h : r.id ∈ (sortRules (rulesIn s c)).map (·.id) <;> simp [h]

theorem compact_sources (s : Store) (c : String) :
    (compactPriorities s c).sources = s.sources := applyIdPhase_sources _ _ _ _

theorem compact_contexts (s : Store) (c : String) :
    (compactPriorities s c).contexts = s.contexts := applyIdPhase_contexts _ _ _ _

theorem compact_nextId (s : Store) (c : String) :
    (compactPriorities s c).nextId = s.nextId := applyIdPhase_nextId _ _ _ _

theorem compact_hasPriorityUnique (s : Store) (c : String) :
    (compactPriorities s c).hasPriorityUnique = s.hasPriorityUnique :=
  applyIdPhase_hasPriorityUnique _ _ _ _

theorem compact_hasFts (s : Store) (c : String) :
    (compactPriorities s c).hasFts = s.hasFts := applyIdPhase_hasFts _ _ _ _

theorem compact_ids {s : Store} (hnd : (s.rules.map (·.id)).Nodup) (c : String) :
    (compactPriorities s c).rules.map (·.id) = s.rules.map (·.id) := by
  rw [compact_rules hnd c, List.map_map]
  refine List.map_congr_left ?_
  intro r _
  by_cases h : r.id ∈ (sortRules (rulesIn s c)).map (·.id) <;> simp [Function.comp, h]

theorem compact_rulesIn_other {s : Store} (hnd : (s.rules.map (·.id)).Nodup)
    {c c' : String} (hne : c' ≠ c) :
    rulesIn (compactPriorities s c) c' = rulesIn s c' := by
  have hG : ∀ r : Rule,
      ((fun r : Rule =>
        if r.id ∈ (sortRules (rulesIn s c)).map (·.id) then
          { r with priority :=
              (keyIdx ((sortRules (rulesIn s c)).map (·.id)) r.id : Int) + 1 }
        else r) r).context = r.context := by
    intro r
    by_cases h : r.id ∈ (sortRules (rulesIn s c)).map (·.id) <;> simp [h]
  rw [rulesIn, compact_rules hnd c, filter_context_map hG]
  refine Eq.trans (List.map_congr_left ?_) (List.map_id _)
  intro r hr
  have hmem : r ∈ s.rules := (List.mem_filter.mp hr).1
  have hctx : r.context = c' := by
    have := (List.mem_filter.mp hr).2
    simpa using this
  rw [if_neg (not_mem_ids_of_context_ne hnd hmem (hctx ▸ hne))]
  rfl

/-- Compaction always re-establishes contiguity for the compacted context. -/
theorem compact_contiguousAt {s : Store} (hnd : (s.rules.map (·.id)).Nodup) (c : String) :
    contiguousAt (compactPriorities s c) c := by
  have hG : ∀ r : Rule,
      ((fun r : Rule =>
        if r.id ∈ (sortRules (rulesIn s c)).map (·.id) then
          { r with priority :=
              (keyIdx ((sortRules (rulesIn s c)).map (·.id)) r.id : Int) + 1 }
        else r) r).context = r.context := by
    intro r
    by_cases h : r.id ∈ (sortRules (rulesIn s c)).map (·.id) <;> simp [h]
  have h1 : rulesIn (compactPriorities s c) c =
      (rulesIn s c).map (fun r : Rule =>
        if r.id ∈ (sortRules (rulesIn s c)).map (·.id) then
          { r with priority :=
              (keyIdx ((sortRules (rulesIn s c)).map (·.id)) r.id : Int) + 1 }
        else r) := by
    rw [rulesIn, compact_rules hnd c, filter_context_map hG]
    rfl
  have h2 : prioritiesOf (compactPriorities s c) c =
      ((rulesIn s c).map (·.id)).map
        (fun i => (keyIdx ((sortRules (rulesIn s c)).map (·.id)) i : Int) + 1) := by
    rw [prioritiesOf, h1, List.map_map, List.map_map]
    refine List.map_congr_left ?_
    intro r hr
    have hid : r.id ∈ (sortRules (rulesIn s c)).map (·.id) := mem_ids_of_mem_rulesIn hr
    simp [Function.comp, hid]
  have hperm : List.Perm ((rulesIn s c).map (·.id)) ((sortRules (rulesIn s c)).map (·.id)) :=
    ((sortRules_perm (rulesIn s c)).map (·.id)).symm
  have h4 : ((sortRules (rulesIn s c)).map (·.id)).map
      (fun i => (keyIdx ((sortRules (rulesIn s c)).map (·.id)) i : Int) + 1) =
      rangeInts ((sortRules (rulesIn s c)).map (·.id)).length := by
    rw [rangeInts, ← map_keyIdx_nodup (sorted_rulesIn_ids_nodup hnd c)]
    conv_rhs => rw [List.map_map]
    refine List.map_congr_left ?_
    intro i _
    simp [Function.comp]
  have hlen : (prioritiesOf (compactPriorities s c) c).length =
      ((sortRules (rulesIn s c)).map (·.id)).length := by
    rw [h2, List.length_map, List.length_map, List.length_map]
    exact ((sortRules_perm (rulesIn s c)).length_eq).symm
  unfold contiguousAt
  rw [hlen, ← h4, h2]
  exact hperm.map _

/-- Net effect of the two-phase reorder transaction on the rule table: every
rule of the context whose source is listed ends at `submitted index + 1`,
everything else is untouched. -/
theorem reorder_fin_rules (c : String) {sids : List String} (hnd : sids.Nodup) (s : Store) :
    (applyPhase c (fun i => (i : Int) + 1)
        (applyPhase c (fun i => -((i : Int) + 1)) s sids 0) sids 0).rules =
      s.rules.map (fun r =>
        if r.context = c ∧ r.sourceId ∈ sids then
          { r with priority := (keyIdx sids r.sourceId : Int) + 1 }
        else r) := by
  rw [applyPhase_rules c _ hnd, applyPhase_rules c _ hnd, List.map_map]
  refine List.map_congr_left ?_
  intro r _
  simp only [Function.comp_apply]
  by_cases h : r.context = c ∧ r.sourceId ∈ sids
  · simp only [if_pos h]
    simp
  · simp only [if_neg h]

/-- Assigning every rule the successor of the index of its key in a
duplicate-free key list that enumerates the rules produces, as a multiset,
exactly the priorities `1..N`. -/
theorem assign_perm_rangeInts [BEq κ] [LawfulBEq κ] {l : List Rule} {ks : List κ}
    (kf : Rule → κ) (hnd : ks.Nodup) (hperm : List.Perm (l.map kf) ks) :
    List.Perm (l.map (fun r => (keyIdx ks (kf r) : Int) + 1)) (rangeInts l.length) := by
  have h1 : l.map (fun r => (keyIdx ks (kf r) : Int) + 1) =
      (l.map kf).map (fun k => (keyIdx ks k : Int) + 1) := by
    rw [List.map_map]
    rfl
  have h2 : List.Perm ((l.map kf).map (fun k => (keyIdx ks k : Int) + 1))
      (ks.map (fun k => (keyIdx ks k : Int) + 1)) := hperm.map _
  have h3 : ks.map (fun k => (keyIdx ks k : Int) + 1) = rangeInts ks.length := by
    rw [rangeInts, ← map_keyIdx_nodup hnd]
    conv_rhs => rw [List.map_map]
    refine List.map_congr_left ?_
    intro k _
    simp [Function.comp]
  have hlen : ks.length = l.length := by
    rw [← hperm.length_eq, List.length_map]
  rw [h1, ← hlen]
  exact h2.trans (h3 ▸ List.Perm.refl _)

theorem existingSourceIds_perm (s : Store) (c : String) :
    List.Perm (existingSourceIds s c) ((rulesIn s c).map (·.sourceId)) :=
  (sortRules_perm (rulesIn s c)).map _

/-! ## Invariant preservation -/

/-- Appending a freshly numbered rule at `max(priority) + 1` keeps the store
invariant, for any replacement context table. -/
theorem storeInv_insert_rule {s : Store} (h : StoreInv s) (context sourceId reason : String)
    (ctxs : List Ctx) :
    StoreInv { s with
      rules := s.rules ++
        [({ id := s.nextId, context := context, sourceId := sourceId,
            priority := maxPriority s context + 1, reason := reason } : Rule)],
      nextId := s.nextId + 1, contexts := ctxs } := by
  have hnotin : s.nextId ∉ s.rules.map (·.id) := by
    intro hmem
    obtain ⟨r, hr, hid⟩ := List.mem_map.mp hmem
    exact absurd (hid ▸ h.bounded r hr) (lt_irrefl _)
  refine ⟨?_, ?_, ?_⟩
  · simp only [List.map_append, List.map_cons, List.map_nil]
    refine (List.perm_append_singleton _ _).nodup_iff.mpr ?_
    exact List.nodup_cons.mpr ⟨hnotin, h.nodup⟩
  · intro r hr
    rcases List.mem_append.mp hr with hr | hr
    · exact Nat.lt_succ_of_lt (h.bounded r hr)
    · have hre : r = (⟨s.nextId, context, sourceId, maxPriority s context + 1, reason⟩ : Rule) := by
        simpa using hr
      rw [hre]
      exact Nat.lt_succ_self _
  · intro c
    unfold contiguousAt prioritiesOf rulesIn
    simp only [List.filter_append, List.map_append]
    by_cases hc : context = c
    · have hfil : List.filter (fun r : Rule => r.context == c)
          [({ id := s.nextId, context := context, sourceId := sourceId,
              priority := maxPriority s context + 1, reason := reason } : Rule)] =
          [({ id := s.nextId, context := context, sourceId := sourceId,
              priority := maxPriority s context + 1, reason := reason } : Rule)] := by
        simp [hc]
      rw [hfil]
      have hpri := h.contig c
      have hmax : maxPriority s context = ((prioritiesOf s c).length : Int) := by
        rw [hc]
        exact maxPriority_of_perm hpri
      simp only [List.map_cons, List.map_nil]
      rw [List.length_append]
      have hlen1 : (List.map (fun r : Rule => r.priority)
          (List.filter (fun r : Rule => r.context == c) s.rules)).length =
          (prioritiesOf s c).length := rfl
      rw [hmax]
      show List.Perm (prioritiesOf s c ++ [((prioritiesOf s c).length : Int) + 1]) _
      rw [hlen1, List.length_singleton, rangeInts_succ]
      exact (h.contig c).append (List.Perm.refl _)
    · have hfil : List.filter (fun r : Rule => r.context == c)
          [({ id := s.nextId, context := context, sourceId := sourceId,
              priority := maxPriority s context + 1, reason := reason } : Rule)] =
          [] := by
        simp [hc]
      rw [hfil]
      have hx := h.contig c
      unfold contiguousAt prioritiesOf rulesIn at hx
      simpa using hx

/-- Updating rows without touching id, context or priority (a reason-only
`UPDATE`) keeps the store invariant. -/
theorem storeInv_map_reason {s : Store} (h : StoreInv s) {g : Rule → Rule}
    (hid : ∀ r, (g r).id = r.id) (hctx : ∀ r, (g r).context = r.context)
    (hpri : ∀ r, (g r).priority = r.priority) :
    StoreInv { s with rules := s.rules.map g } := by
  have hids : (s.rules.map g).map (·.id) = s.rules.map (·.id) := by
    rw [List.map_map]
    refine List.map_congr_left ?_
    intro r _
    simp [Function.comp, hid]
  refine ⟨?_, ?_, ?_⟩
  · show ((s.rules.map g).map (·.id)).Nodup
    rw [hids]
    exact h.nodup
  · intro r hr
    obtain ⟨r0, hr0, rfl⟩ := List.mem_map.mp hr
    show (g r0).id < s.nextId
    rw [hid r0]
    exact h.bounded r0 hr0
  · intro c
    have hP : prioritiesOf { s with rules := s.rules.map g } c = prioritiesOf s c := by
      unfold prioritiesOf rulesIn
      rw [filter_context_map hctx, List.map_map]
      refine List.map_congr_left ?_
      intro r _
      simp [Function.comp, hpri]
    unfold contiguousAt
    rw [hP]
    exact h.contig c

theorem storeInv_setSourceRule (s : Store) (h : StoreInv s) (context sourceId reason : String) :
    StoreInv (setSourceRule s context sourceId reason).store := by
  rw [setSourceRule]
  split
  · exact h
  · split
    · rename_i existing heq
      exact storeInv_map_reason h
        (fun r => by by_cases hh : (r.id == existing.id) = true <;> simp [hh])
        (fun r => by by_cases hh : (r.id == existing.id) = true <;> simp [hh])
        (fun r => by by_cases hh : (r.id == existing.id) = true <;> simp [hh])
    · dsimp only
      split
      · exact storeInv_insert_rule h context sourceId reason s.contexts
      · exact storeInv_insert_rule h context sourceId reason _

theorem storeInv_ensureRule (s : Store) (h : StoreInv s) (context sourceId reason : String) :
    StoreInv (ensureRule s context sourceId reason) := by
  rw [ensureRule]
  split
  · exact storeInv_map_reason h
      (fun r => by
        by_cases hh : (r.context == context && r.sourceId == sourceId) = true <;> simp [hh])
      (fun r => by
        by_cases hh : (r.context == context && r.sourceId == sourceId) = true <;> simp [hh])
      (fun r => by
        by_cases hh : (r.context == context && r.sourceId == sourceId) = true <;> simp [hh])
  · exact storeInv_insert_rule h context sourceId reason s.contexts

/-- The priorities of every other context are untouched by a rule deletion. -/
theorem rulesIn_filter_del (s : Store) {context : String} (sourceId : String)
    {c' : String} (hne : c' ≠ context) :
    rulesIn { s with rules := s.rules.filter (fun r =>
        !(r.context == context && r.sourceId == sourceId)) } c' = rulesIn s c' := by
  unfold rulesIn
  rw [List.filter_filter]
  refine filter_and_eq ?_
  intro r _ hp
  have hc : r.context = c' := by simpa using hp
  simp [hc, hne]

theorem storeInv_deleteRule (s : Store) (h : StoreInv s) (context sourceId : String) :
    StoreInv (deleteRule s context sourceId).store := by
  rw [deleteRule]
  dsimp only
  split
  · exact h
  · set s1 : Store := { s with rules := s.rules.filter (fun r =>
        !(r.context == context && r.sourceId == sourceId)) } with hs1
    have hnd1 : (s1.rules.map (·.id)).Nodup :=
      ((List.filter_sublist s.rules).map _).nodup h.nodup
    refine ⟨?_, ?_, ?_⟩
    · show ((compactPriorities s1 context).rules.map (·.id)).Nodup
      rw [compact_ids hnd1]
      exact hnd1
    · intro r hr
      rw [compact_rules hnd1] at hr
      obtain ⟨r0, hr0, rfl⟩ := List.mem_map.mp hr
      show _ < (compactPriorities s1 context).nextId
      rw [compact_nextId]
      have hb : r0.id < s.nextId := h.bounded r0 (List.mem_of_mem_filter hr0)
      by_cases hh : r0.id ∈ (sortRules (rulesIn s1 context)).map (·.id) <;> simp [hh, hb]
    · intro c
      by_cases hc : c = context
      · subst hc
        exact compact_contiguousAt hnd1 c
      · have h1 : rulesIn (compactPriorities s1 context) c = rulesIn s c := by
          rw [compact_rulesIn_other hnd1 hc, hs1, rulesIn_filter_del s sourceId hc]
        unfold contiguousAt prioritiesOf
        rw [h1]
        exact h.contig c

theorem storeInv_reorderRules (s : Store) (h : StoreInv s) (context : String)
    (sids : List String) :
    StoreInv (reorderRules s context sids).store := by
  rw [reorderRules]
  split
  · exact h
  · dsimp only
    split
    · exact h
    · split
      · exact h
      · rename_i hA hB hC
        have hBeq : sortStrings (existingSourceIds s context) = sortStrings sids := by
          simpa using hB
        have hperm0 : List.Perm sids ((rulesIn s context).map (·.sourceId)) :=
          (sortStrings_eq_iff.mp hBeq).symm.trans (existingSourceIds_perm s context)
        have hnd : sids.Nodup := by
          have hlen : (distinctStrings sids).length = sids.length := by simpa using hC
          exact (distinctStrings_length_eq_iff sids).mp hlen
        have hrules := reorder_fin_rules context hnd s
        have hids : ((applyPhase context (fun i => (i : Int) + 1)
            (applyPhase context (fun i => -((i : Int) + 1)) s sids 0) sids 0).rules.map (·.id)) =
            s.rules.map (·.id) := by
          rw [hrules, List.map_map]
          refine List.map_congr_left ?_
          intro r _
          by_cases hh : r.context = context ∧ r.sourceId ∈ sids <;> simp [Function.comp, hh]
        have hnid : (applyPhase context (fun i => (i : Int) + 1)
            (applyPhase context (fun i => -((i : Int) + 1)) s sids 0) sids 0).nextId =
            s.nextId := by
          rw [applyPhase_nextId, applyPhase_nextId]
        refine ⟨?_, ?_, ?_⟩
        · show ((applyPhase context _ _ sids 0).rules.map (·.id)).Nodup
          rw [hids]
          exact h.nodup
        · intro r hr
          rw [hrules] at hr
          obtain ⟨r0, hr0, rfl⟩ := List.mem_map.mp hr
          show _ < (applyPhase context _ _ sids 0).nextId
          rw [hnid]
          have hb := h.bounded r0 hr0
          by_cases hh : r0.context = context ∧ r0.sourceId ∈ sids <;> simp [hh, hb]
        · intro c
          by_cases hc : c = context
          · subst hc
            have hGctx : ∀ r : Rule,
                ((fun r : Rule =>
                  if r.context = c ∧ r.sourceId ∈ sids then
                    { r with priority := (keyIdx sids r.sourceId : Int) + 1 }
                  else r) r).context = r.context := by
              intro r
              by_cases hh : r.context = c ∧ r.sourceId ∈ sids <;> simp [hh]
            have hP : prioritiesOf (applyPhase c (fun i => (i : Int) + 1)
                (applyPhase c (fun i => -((i : Int) + 1)) s sids 0) sids 0) c =
                (rulesIn s c).map (fun r => (keyIdx sids r.sourceId : Int) + 1) := by
              unfold prioritiesOf rulesIn
              rw [hrules, filter_context_map hGctx, List.map_map]
              refine List.map_congr_left ?_
              intro r hr
              have hcc : r.context = c := by
                have := (List.mem_filter.mp hr).2
                simpa using this
              have hsid : r.sourceId ∈ sids := by
                refine hperm0.symm.mem_iff.mp ?_
                exact List.mem_map.mpr ⟨r, hr, rfl⟩
              simp [Function.comp, hcc, hsid]
            unfold contiguousAt
            rw [hP]
            have hlen2 : ((rulesIn s c).map
                (fun r => (keyIdx sids r.sourceId : Int) + 1)).length =
                (rulesIn s c).length := List.length_map _ _
            rw [hlen2]
            exact assign_perm_rangeInts (·.sourceId) hnd hperm0.symm
          · have hGctx : ∀ r : Rule,
                ((fun r : Rule =>
                  if r.context = context ∧ r.sourceId ∈ sids then
                    { r with priority := (keyIdx sids r.sourceId : Int) + 1 }
                  else r) r).context = r.context := by
              intro r
              by_cases hh : r.context = context ∧ r.sourceId ∈ sids <;> simp [hh]
            have hP : prioritiesOf (applyPhase context (fun i => (i : Int) + 1)
                (applyPhase context (fun i => -((i : Int) + 1)) s sids 0) sids 0) c =
                prioritiesOf s c := by
              unfold prioritiesOf rulesIn
              rw [hrules, filter_context_map hGctx, List.map_map]
              refine List.map_congr_left ?_
              intro r hr
              have hcc : r.context = c := by
                have := (List.mem_filter.mp hr).2
                simpa using this
              have hne2 : ¬(r.context = context ∧ r.sourceId ∈ sids) := by
                rintro ⟨hcon, -⟩
                exact hc (hcc ▸ hcon ▸ rfl)
              simp [Function.comp, hne2]
            unfold contiguousAt
            rw [hP]
            exact h.contig c

theorem storeInv_of_checks {s : Store} (h1 : idsOk s = true) (h2 : contigCheck s = true) :
    StoreInv s := by
  unfold idsOk at h1
  rw [Bool.and_eq_true] at h1
  refine ⟨of_decide_eq_true h1.1, ?_, ?_⟩
  · intro r hr
    have := List.all_eq_true.mp h1.2 r hr
    exact of_decide_eq_true this
  · intro c
    by_cases hc : rulesIn s c = []
    · unfold contiguousAt
      rw [prioritiesOf, hc]
      simp [rangeInts]
    · obtain ⟨r, hr⟩ := List.exists_mem_of_ne_nil _ hc
      have hrs : r ∈ s.rules := (List.mem_filter.mp hr).1
      have hrc : r.context = c := by
        have := (List.mem_filter.mp hr).2
        simpa using this
      have hmem : c ∈ s.rules.map (·.context) := List.mem_map.mpr ⟨r, hrs, hrc⟩
      have hbeq := List.all_eq_true.mp (by unfold contigCheck at h2; exact h2) c hmem
      have heq : sortInts (prioritiesOf s c) = rangeInts (prioritiesOf s c).length :=
        eq_of_beq hbeq
      exact sortInts_eq_rangeInts_iff.mp heq

set_option maxRecDepth 400000 in
theorem storeInv_seededStore : StoreInv seededStore :=
  storeInv_of_checks (by decide) (by decide)

theorem storeInv_applyOp (s : Store) (h : StoreInv s) (op : RuleOp) :
    StoreInv (applyOp s op) := by
  cases op with
  | set context sourceId reason => exact storeInv_setSourceRule s h context sourceId reason
  | ensure context sourceId reason => exact storeInv_ensureRule s h context sourceId reason
  | del context sourceId => exact storeInv_deleteRule s h context sourceId
  | reorder context sourceIds => exact storeInv_reorderRules s h context sourceIds

theorem storeInv_applyOps (s : Store) (h : StoreInv s) (ops : List RuleOp) :
    StoreInv (applyOps s ops) := by
  induction ops generalizing s with
  | nil => exact h
  | cons op rest ih => exact ih _ (storeInv_applyOp s h op)

/-- Claim C1: for every context C, after any sequence of rule operations
(setRule / ensureRule upserts, deletes followed by compaction, reorders)
starting from the seeded store, the multiset of priorities of the rules of C
is exactly the contiguous sequence 1..N, where N is the number of rules of C —
no gaps and no duplicates. -/
theorem c1_priorities_contiguous (ops : List RuleOp) (c : String) :
    List.Perm (prioritiesOf (applyOps seededStore ops) c)
      (rangeInts (prioritiesOf (applyOps seededStore ops) c).length) :=
  (storeInv_applyOps seededStore storeInv_seededStore ops).contig c

/-! ## Claim C2: the reorder endpoint -/

theorem mem_sids_of_context_rule {s : Store} {context : String} {sids : List String}
    (hperm0 : List.Perm sids ((rulesIn s context).map (·.sourceId)))
    {r : Rule} (hr : r ∈ s.rules) (hc : r.context = context) : r.sourceId ∈ sids := by
  refine hperm0.symm.mem_iff.mp ?_
  refine List.mem_map.mpr ⟨r, ?_, rfl⟩
  unfold rulesIn
  rw [List.mem_filter]
  exact ⟨hr, by simp [hc]⟩

/-- Claim C2 (amended): `reorder(context, sourceIds)` succeeds if and only if
the context name and the submitted list are nonempty and the submitted ids are
exactly the existing source ids of the context (same members, no duplicates);
on rejection no rule row is modified; on success the transaction is two-phase
(the intermediate pass leaves every affected priority negative) and the final
priorities are `1..N` in the submitted order. -/
theorem c2_reorder_two_phase (s : Store) (context : String) (sourceIds : List String) :
    ((reorderRules s context sourceIds).ok = true ↔
      context ≠ "" ∧ sourceIds ≠ [] ∧ sourceIds.Nodup ∧
        List.Perm sourceIds (existingSourceIds s context)) ∧
    ((reorderRules s context sourceIds).ok = false →
      (reorderRules s context sourceIds).store = s) ∧
    ((reorderRules s context sourceIds).ok = true →
      (∀ r ∈ (applyPhase context (fun i => -((i : Int) + 1)) s sourceIds 0).rules,
          r.context = context → r.priority < 0) ∧
      (reorderRules s context sourceIds).store =
        applyPhase context (fun i => (i : Int) + 1)
          (applyPhase context (fun i => -((i : Int) + 1)) s sourceIds 0) sourceIds 0 ∧
      (∀ r ∈ (reorderRules s context sourceIds).store.rules,
          r.context = context → r.priority = (keyIdx sourceIds r.sourceId : Int) + 1)) := by
  rw [reorderRules]
  split
  · rename_i hA
    rw [Bool.or_eq_true] at hA
    refine ⟨?_, fun _ => rfl, fun hok => absurd hok (by simp)⟩
    constructor
    · intro hfalse
      exact absurd hfalse (by simp)
    · rintro ⟨hc, hl, -, -⟩
      rcases hA with hA | hA
      · exact absurd (by simpa using hA) hc
      · exact absurd (by simpa using hA) hl
  · rename_i hA
    rw [Bool.or_eq_true, not_or] at hA
    have hcne : context ≠ "" := fun hc => hA.1 (by simp [hc])
    have hlne : sourceIds ≠ [] := fun hl => hA.2 (by simp [hl])
    dsimp only
    split
    · rename_i hB
      have hnp : ¬List.Perm sourceIds (existingSourceIds s context) := by
        intro hp
        have hss : sortStrings (existingSourceIds s context) = sortStrings sourceIds :=
          sortStrings_eq_iff.mpr hp.symm
        simp [hss] at hB
      refine ⟨?_, fun _ => rfl, fun hok => absurd hok (by simp)⟩
      constructor
      · intro hfalse
        exact absurd hfalse (by simp)
      · rintro ⟨-, -, -, hp⟩
        exact absurd hp hnp
    · rename_i hB
      have hBeq : sortStrings (existingSourceIds s context) = sortStrings sourceIds := by
        simpa using hB
      have hpermE : List.Perm sourceIds (existingSourceIds s context) :=
        (sortStrings_eq_iff.mp hBeq).symm
      have hperm0 : List.Perm sourceIds ((rulesIn s context).map (·.sourceId)) :=
        hpermE.trans (existingSourceIds_perm s context)
      split
      · rename_i hC
        have hnnd : ¬sourceIds.Nodup := by
          intro hnd
          have hdl := (distinctStrings_length_eq_iff sourceIds).mpr hnd
          simp [hdl] at hC
        refine ⟨?_, fun _ => rfl, fun hok => absurd hok (by simp)⟩
        constructor
        · intro hfalse
          exact absurd hfalse (by simp)
        · rintro ⟨-, -, hnd, -⟩
          exact absurd hnd hnnd
      · rename_i hC
        have hnd : sourceIds.Nodup := by
          have hlen : (distinctStrings sourceIds).length = sourceIds.length := by
            simpa using hC
          exact (distinctStrings_length_eq_iff sourceIds).mp hlen
        refine ⟨iff_of_true rfl ⟨hcne, hlne, hnd, hpermE⟩, ?_, ?_⟩
        · intro hfalse
          exact absurd hfalse (by simp)
        · intro _
          refine ⟨?_, rfl, ?_⟩
          · intro r hr hc
            rw [applyPhase_rules context _ hnd] at hr
            obtain ⟨r0, hr0, rfl⟩ := List.mem_map.mp hr
            by_cases hcase : r0.context = context ∧ r0.sourceId ∈ sourceIds
            · rw [if_pos hcase]
              show -((0 + keyIdx sourceIds r0.sourceId : Int) + 1) < 0
              omega
            · rw [if_neg hcase] at hc ⊢
              exact absurd ⟨hc, mem_sids_of_context_rule hperm0 hr0 hc⟩ hcase
          · intro r hr hc
            have hr2 : r ∈ (applyPhase context (fun i => (i : Int) + 1)
                (applyPhase context (fun i => -((i : Int) + 1)) s sourceIds 0)
                sourceIds 0).rules := hr
            rw [reorder_fin_rules context hnd s] at hr2
            obtain ⟨r0, hr0, hre⟩ := List.mem_map.mp hr2
            subst hre
            by_cases hcase : r0.context = context ∧ r0.sourceId ∈ sourceIds
            · rw [if_pos hcase]
            · rw [if_neg hcase] at hc ⊢
              exact absurd ⟨hc, mem_sids_of_context_rule hperm0 hr0 hc⟩ hcase

set_option maxRecDepth 400000 in
/-- Claim C2, counterexample to the stated iff: for the unseeded context
`marketing` the set of existing source ids is empty, so the empty submission
matches it exactly (same members, no omissions, no extras, no duplicates),
yet the handler rejects it (missing-fields guard) instead of succeeding. -/
theorem c2_reorder_counterexample :
    existingSourceIds seededStore "marketing" = [] ∧
    (reorderRules seededStore "marketing" []).ok = false ∧
    (reorderRules seededStore "marketing" []).store = seededStore := by
  refine ⟨by decide, rfl, rfl⟩

set_option maxRecDepth 400000 in
/-- Witness for C2: a concrete successful reorder of the `personal-brand`
context on the seeded store, with the final priorities following the
submitted order. -/
theorem c2_reorder_two_phase_witness :
    (reorderRules seededStore "personal-brand" ["kb-bookmarks", "writings"]).ok = true ∧
    (∀ r ∈ (reorderRules seededStore "personal-brand" ["kb-bookmarks", "writings"]).store.rules,
        r.context = "personal-brand" →
        r.priority = (keyIdx ["kb-bookmarks", "writings"] r.sourceId : Int) + 1) :=
  ⟨by decide,
    ((c2_reorder_two_phase seededStore "personal-brand" ["kb-bookmarks", "writings"]).2.2
      (by decide)).2.2⟩

/-! ## Claim C5: the set-source-rule upsert -/

/-- Claim C5: `setRule(context, source, reason)` on an existing
(context, source) pair updates only the reason — every row keeps its id,
context, source and priority, rows outside the pair are untouched, and no row
is created or deleted; on a new pair it inserts one rule at priority
`max(existing priorities of the context) + 1` (so `1` when the context has no
rules), leaves every existing row untouched, and auto-creates the context
record. -/
theorem c5_set_rule_upsert (s : Store) (context sourceId reason : String)
    (hnd : (s.rules.map (·.id)).Nodup)
    (hsrc : s.sources.any (fun src => src.id == sourceId) = true) :
    ((∃ r0 ∈ s.rules, r0.context = context ∧ r0.sourceId = sourceId) →
      (setSourceRule s context sourceId reason).ok = true ∧
      List.Forall₂ (fun a b : Rule =>
          b.id = a.id ∧ b.context = a.context ∧ b.sourceId = a.sourceId ∧
            b.priority = a.priority ∧
            (¬(a.context = context ∧ a.sourceId = sourceId) → b = a))
        s.rules (setSourceRule s context sourceId reason).store.rules ∧
      (setSourceRule s context sourceId reason).store.contexts = s.contexts ∧
      (setSourceRule s context sourceId reason).store.sources = s.sources) ∧
    (¬(∃ r0 ∈ s.rules, r0.context = context ∧ r0.sourceId = sourceId) →
      (setSourceRule s context sourceId reason).ok = true ∧
      (setSourceRule s context sourceId reason).store.rules =
        s.rules ++ [(⟨s.nextId, context, sourceId, maxPriority s context + 1, reason⟩ : Rule)] ∧
      (rulesIn s context = [] → maxPriority s context + 1 = 1) ∧
      (∀ r ∈ rulesIn s context, r.priority ≤ maxPriority s context) ∧
      (rulesIn s context ≠ [] →
        maxPriority s context ∈ (rulesIn s context).map (·.priority)) ∧
      context ∈ (setSourceRule s context sourceId reason).store.contexts.map (·.name)) := by
  have hmax_le : ∀ r ∈ rulesIn s context, r.priority ≤ maxPriority s context := by
    intro r hr
    have hmem : r.priority ∈ (rulesIn s context).map (·.priority) :=
      List.mem_map.mpr ⟨r, hr, rfl⟩
    rcases hcase : (rulesIn s context).map (·.priority) with _ | ⟨p, ps⟩
    · rw [hcase] at hmem
      exact absurd hmem (List.not_mem_nil _)
    · rw [maxPriority, hcase]
      exact le_foldl_max (hcase ▸ hmem)
  have hmax_mem : rulesIn s context ≠ [] →
      maxPriority s context ∈ (rulesIn s context).map (·.priority) := by
    intro hne
    rcases hcase : (rulesIn s context).map (·.priority) with _ | ⟨p, ps⟩
    · exact absurd (List.map_eq_nil_iff.mp hcase) hne
    · rw [maxPriority, hcase]
      exact foldl_max_mem p ps
  constructor
  · rintro ⟨r0, hr0, hr0c, hr0s⟩
    have hfind : (s.rules.find? (fun r => r.context == context && r.sourceId == sourceId)).isSome := by
      rw [List.find?_isSome]
      exact ⟨r0, hr0, by simp [hr0c, hr0s]⟩
    obtain ⟨e, heq⟩ := Option.isSome_iff_exists.mp hfind
    have hem : e ∈ s.rules := List.mem_of_find?_eq_some heq
    have hep : e.context = context ∧ e.sourceId = sourceId := by
      have := List.find?_some heq
      simpa using this
    rw [setSourceRule]
    rw [if_neg (by simp [hsrc]), heq]
    refine ⟨rfl, ?_, rfl, rfl⟩
    show List.Forall₂ _ s.rules (s.rules.map _)
    rw [List.forall₂_map_right_iff, List.forall₂_same]
    intro a ha
    by_cases hid : (a.id == e.id) = true
    · have hae : a = e := List.inj_on_of_nodup_map hnd ha hem (by simpa using hid)
      refine ⟨by simp [hid], by simp [hid], by simp [hid], by simp [hid], ?_⟩
      intro hnp
      exact absurd (hae ▸ hep) hnp
    · simp [hid]
  · intro hnone
    have hfind : s.rules.find? (fun r => r.context == context && r.sourceId == sourceId) = none := by
      rw [List.find?_eq_none]
      intro r hr hp
      have hps : r.context = context ∧ r.sourceId = sourceId := by simpa using hp
      exact hnone ⟨r, hr, hps⟩
    rw [setSourceRule]
    rw [if_neg (by simp [hsrc]), hfind]
    dsimp only
    refine ⟨?_, ?_, ?_, hmax_le, hmax_mem, ?_⟩
    · rfl
    · split <;> rfl
    · intro hempty
      rw [maxPriority]
      rw [show (rulesIn s context).map (·.priority) = [] from by rw [hempty]; rfl]
      rfl
    · split
      · rename_i hany
        obtain ⟨k, hk, hkn⟩ := List.any_eq_true.mp hany
        exact List.mem_map.mpr ⟨k, hk, by simpa using hkn⟩
      · refine List.mem_map.mpr ⟨⟨context, ""⟩, ?_, rfl⟩
        exact List.mem_append.mpr (Or.inr (List.mem_cons_self _ _))

set_option maxRecDepth 400000 in
/-- Witness for C5: on the seeded store, updating the existing (code, github)
rule leaves the context table alone, and setting the new (research, vault)
rule appends a single rule at the next free priority. -/
theorem c5_set_rule_upsert_witness :
    ((setSourceRule seededStore "code" "github" "updated reason").ok = true ∧
      (setSourceRule seededStore "code" "github" "updated reason").store.contexts =
        seededStore.contexts) ∧
    ((setSourceRule seededStore "research" "vault" "fiction references").ok = true ∧
      (setSourceRule seededStore "research" "vault" "fiction references").store.rules =
        seededStore.rules ++ [(⟨seededStore.nextId, "research", "vault",
          maxPriority seededStore "research" + 1, "fiction references"⟩ : Rule)]) := by
  have h1 := (c5_set_rule_upsert seededStore "code" "github" "updated reason"
    (by decide) (by decide)).1 (by decide)
  have h2 := (c5_set_rule_upsert seededStore "research" "vault" "fiction references"
    (by decide) (by decide)).2 (by decide)
  exact ⟨⟨h1.1, h1.2.2.1⟩, ⟨h2.1, h2.2.1⟩⟩

/-! ## Claim C4: routing queries and the general fallback -/

theorem mem_joinRows_priority {s : Store} {l : List Rule} {row : RoutingRow}
    (h : row ∈ joinRows s l) : ∃ r ∈ l, row.priority = r.priority := by
  unfold joinRows at h
  obtain ⟨r, hr, hf⟩ := List.mem_filterMap.mp h
  refine ⟨r, hr, ?_⟩
  rcases hfind : s.sources.find? (fun src => src.id == r.sourceId) with _ | src
  · rw [hfind] at hf
    simp at hf
  · rw [hfind] at hf
    simp only [Option.some.injEq] at hf
    rw [← hf]

theorem joinRows_pairwise {s : Store} {l : List Rule}
    (h : List.Pairwise (fun a b : Rule => a.priority ≤ b.priority) l) :
    List.Pairwise (fun a b : RoutingRow => a.priority ≤ b.priority) (joinRows s l) := by
  induction l with
  | nil => simp [joinRows]
  | cons x xs ih =>
      have hx := List.pairwise_cons.mp h
      unfold joinRows
      rw [List.filterMap_cons]
      rcases hfind : s.sources.find? (fun src => src.id == x.sourceId) with _ | src
      · rw [hfind]
        exact ih hx.2
      · rw [hfind]
        refine List.Pairwise.cons ?_ (ih hx.2)
        intro row hrow
        obtain ⟨r, hr, hpr⟩ := mem_joinRows_priority hrow
        show x.priority ≤ row.priority
        rw [hpr]
        exact hx.1 r hr

/-- Claim C4: querying routing for a context returns the rules of that
context in ascending priority order; if the context has no rules the query is
empty and the handler falls back to the `general` rules in priority order; if
`general` is also empty it returns the no-routing-rules reply. -/
theorem c4_routing_fallback (s : Store) (c : String) :
    (rulesIn s c = [] → routingQuery s c = []) ∧
    (routingQuery s c ≠ [] →
      getSourceRouting s c = .exact (routingQuery s c) ∧
      List.Perm (routingQuery s c) (joinRows s (rulesIn s c)) ∧
      List.Pairwise (fun a b : RoutingRow => a.priority ≤ b.priority) (routingQuery s c)) ∧
    (routingQuery s c = [] → routingQuery s "general" ≠ [] →
      getSourceRouting s c = .fallbackGeneral (routingQuery s "general") ∧
      List.Perm (routingQuery s "general") (joinRows s (rulesIn s "general")) ∧
      List.Pairwise (fun a b : RoutingRow => a.priority ≤ b.priority)
        (routingQuery s "general")) ∧
    (routingQuery s c = [] → routingQuery s "general" = [] →
      getSourceRouting s c = .noRules) := by
  refine ⟨?_, ?_, ?_, ?_⟩
  · intro hempty
    unfold routingQuery
    rw [hempty]
    rfl
  · intro hne
    refine ⟨?_, ?_, ?_⟩
    · rw [getSourceRouting]
      rw [if_neg (by simpa [List.isEmpty_iff] using hne)]
    · exact List.Perm.filterMap _ (sortRules_perm (rulesIn s c))
    · exact joinRows_pairwise (sortRules_sorted (rulesIn s c))
  · intro hempty hgen
    refine ⟨?_, ?_, ?_⟩
    · rw [getSourceRouting]
      rw [if_pos (by simp [List.isEmpty_iff, hempty])]
      rw [if_neg (by simpa [List.isEmpty_iff] using hgen)]
    · exact List.Perm.filterMap _ (sortRules_perm (rulesIn s "general"))
    · exact joinRows_pairwise (sortRules_sorted (rulesIn s "general"))
  · intro hempty hgen
    rw [getSourceRouting]
    rw [if_pos (by simp [List.isEmpty_iff, hempty])]
    rw [if_pos (by simp [List.isEmpty_iff, hgen])]

set_option maxRecDepth 400000 in
/-- Witness for C4: on the seeded store, querying the unseeded context
`marketing` falls back to the general rule list, while querying `code`
returns the exact rule list of `code`. -/
theorem c4_routing_fallback_witness :
    getSourceRouting seededStore "marketing" =
      .fallbackGeneral (routingQuery seededStore "general") ∧
    getSourceRouting seededStore "code" = .exact (routingQuery seededStore "code") := by
  have h1 := (c4_routing_fallback seededStore "marketing").2.2.1 (by decide) (by decide)
  have h2 := (c4_routing_fallback seededStore "code").2.1 (by decide)
  exact ⟨h1.1, h2.1⟩

/-! ## Claim C10: the renumbering operations touch only priorities -/

/-- A successful reorder takes the two-phase branch: the submitted ids are
duplicate-free and enumerate the context, and the resulting store only
rewrites priorities of the matched rules. -/
theorem reorder_ok_spec (s : Store) (c : String) (sids : List String)
    (hok : (reorderRules s c sids).ok = true) :
    sids.Nodup ∧ List.Perm sids ((rulesIn s c).map (·.sourceId)) ∧
    (reorderRules s c sids).store.rules =
      s.rules.map (fun r =>
        if r.context = c ∧ r.sourceId ∈ sids then
          { r with priority := (keyIdx sids r.sourceId : Int) + 1 }
        else r) ∧
    (reorderRules s c sids).store.sources = s.sources ∧
    (reorderRules s c sids).store.contexts = s.contexts := by
  rw [reorderRules]
  split
  · rename_i hA
    rw [reorderRules, if_pos hA] at hok
    exact absurd hok (by simp)
  · rename_i hA
    dsimp only
    split
    · rename_i hB
      rw [reorderRules, if_neg hA] at hok
      dsimp only at hok
      rw [if_pos hB] at hok
      exact absurd hok (by simp)
    · rename_i hB
      split
      · rename_i hC
        rw [reorderRules, if_neg hA] at hok
        dsimp only at hok
        rw [if_neg hB, if_pos hC] at hok
        exact absurd hok (by simp)
      · rename_i hC
        have hBeq : sortStrings (existingSourceIds s c) = sortStrings sids := by
          simpa using hB
        have hperm0 : List.Perm sids ((rulesIn s c).map (·.sourceId)) :=
          (sortStrings_eq_iff.mp hBeq).symm.trans (existingSourceIds_perm s c)
        have hnd : sids.Nodup := by
          have hlen : (distinctStrings sids).length = sids.length := by simpa using hC
          exact (distinctStrings_length_eq_iff sids).mp hlen
        exact ⟨hnd, hperm0, reorder_fin_rules c hnd s,
          by rw [applyPhase_sources, applyPhase_sources],
          by rw [applyPhase_contexts, applyPhase_contexts]⟩

/-- Claim C10: `compactPriorities` and a successful reorder modify only the
priority field — every rule row keeps its id, context, source and reason, no
rows are created or deleted (the tables stay pointwise aligned), the sources
and contexts tables are untouched, and the rules of every other context are
completely unchanged. -/
theorem c10_renumber_frame (s : Store) (c : String) (sids : List String)
    (hnd : (s.rules.map (·.id)).Nodup)
    (hok : (reorderRules s c sids).ok = true) :
    (List.Forall₂ (frameEq c) s.rules (compactPriorities s c).rules ∧
      (compactPriorities s c).rules.length = s.rules.length ∧
      (compactPriorities s c).sources = s.sources ∧
      (compactPriorities s c).contexts = s.contexts ∧
      (∀ c', c' ≠ c → rulesIn (compactPriorities s c) c' = rulesIn s c')) ∧
    (List.Forall₂ (frameEq c) s.rules (reorderRules s c sids).store.rules ∧
      (reorderRules s c sids).store.rules.length = s.rules.length ∧
      (reorderRules s c sids).store.sources = s.sources ∧
      (reorderRules s c sids).store.contexts = s.contexts ∧
      (∀ c', c' ≠ c → rulesIn (reorderRules s c sids).store c' = rulesIn s c')) := by
  obtain ⟨hsnd, hperm0, hrules, hsrcs, hctxs⟩ := reorder_ok_spec s c sids hok
  constructor
  · refine ⟨?_, ?_, compact_sources s c, compact_contexts s c, ?_⟩
    · rw [compact_rules hnd c, List.forall₂_map_right_iff, List.forall₂_same]
      intro a ha
      by_cases hmem : a.id ∈ (sortRules (rulesIn s c)).map (·.id)
      · refine ⟨by simp [hmem], by simp [hmem], by simp [hmem], by simp [hmem], ?_⟩
        intro hne
        exact absurd hmem (not_mem_ids_of_context_ne hnd ha hne)
      · simp [hmem, frameEq]
    · rw [compact_rules hnd c, List.length_map]
    · intro c' hne
      exact compact_rulesIn_other hnd hne
  · refine ⟨?_, ?_, hsrcs, hctxs, ?_⟩
    · rw [hrules, List.forall₂_map_right_iff, List.forall₂_same]
      intro a _
      by_cases hmem : a.context = c ∧ a.sourceId ∈ sids
      · refine ⟨by simp [hmem], by simp [hmem], by simp [hmem], by simp [hmem], ?_⟩
        intro hne
        exact absurd hmem.1 hne
      · simp [hmem, frameEq]
    · rw [hrules, List.length_map]
    · intro c' hne
      unfold rulesIn
      rw [hrules]
      have hGctx : ∀ r : Rule,
          ((fun r : Rule =>
            if r.context = c ∧ r.sourceId ∈ sids then
              { r with priority := (keyIdx sids r.sourceId : Int) + 1 }
            else r) r).context = r.context := by
        intro r
        by_cases hh : r.context = c ∧ r.sourceId ∈ sids <;> simp [hh]
      rw [filter_context_map hGctx]
      refine Eq.trans (List.map_congr_left ?_) (List.map_id _)
      intro r hr
      have hctx2 : r.context = c' := by
        have := (List.mem_filter.mp hr).2
        simpa using this
      rw [if_neg (by
        rintro ⟨hcc, -⟩
        exact hne (hctx2 ▸ hcc ▸ rfl))]
      rfl

set_option maxRecDepth 400000 in
/-- Witness for C10: compacting `code` on the seeded store keeps the sources
table, and a concrete successful reorder of `code` leaves the `research`
rules untouched. -/
theorem c10_renumber_frame_witness :
    (compactPriorities seededStore "code").sources = seededStore.sources ∧
    rulesIn (reorderRules seededStore "code"
        ["kb-notes", "github", "ext-linear", "ext-notion-work",
          "ext-gdocs-work", "kb-bookmarks"]).store "research" =
      rulesIn seededStore "research" := by
  have h := c10_renumber_frame seededStore "code"
    ["kb-notes", "github", "ext-linear", "ext-notion-work", "ext-gdocs-work", "kb-bookmarks"]
    (by decide) (by decide)
  exact ⟨h.1.2.2.1, h.2.2.2.2.2 "research" (by decide)⟩

/-! ## Claims C6, C7, C8: read-only mounting, write classification,
fault-isolated initialization -/

/-- Claim C6: on a read-only session no write-classified tool is mounted:
`registerOnServer` skips every adapter tool with `isWrite`, and the native
mutating tools `set-source-rule` and `register-source` are not registered. -/
theorem c6_readonly_no_write_tools (adapters : List AdapterState) :
    (∀ pr ∈ registeredAdapterTools adapters true, pr.2 = false) ∧
    "set-source-rule" ∉ registeredSourceToolNames true ∧
    "register-source" ∉ registeredSourceToolNames true := by
  refine ⟨?_, by decide, by decide⟩
  intro pr hpr
  unfold registeredAdapterTools at hpr
  rw [List.mem_flatMap] at hpr
  obtain ⟨a, ha, hpr⟩ := hpr
  rw [List.mem_map] at hpr
  obtain ⟨t, ht, rfl⟩ := hpr
  have hcond := (List.mem_filter.mp ht).2
  simpa using hcond

/-- Witness for C6: the read-only Google adapter session mounts the read tool
and the mounted entry is classified read. -/
theorem c6_readonly_no_write_tools_witness :
    ("gdocs-docs_document_get", false) ∈ registeredAdapterTools [gdocsAdapter] true ∧
    (("gdocs-docs_document_get", false) : String × Bool).2 = false :=
  ⟨by decide,
    (c6_readonly_no_write_tools [gdocsAdapter]).1 ("gdocs-docs_document_get", false) (by decide)⟩

/-- Claim C7: `isWrite` is the explicit `writeTools` membership when an
override list is configured (regardless of upstream annotations); otherwise it
is true exactly for an upstream-declared `destructiveHint` or an explicit
`readOnlyHint: false`; a tool without annotations is classified read-only. -/
theorem c7_is_write_classification (ws : List String) (t : UpstreamTool) :
    (classifyIsWrite (some ws) t = true ↔ t.name ∈ ws) ∧
    (classifyIsWrite none t = true ↔
      ∃ h, t.hints = some h ∧
        (h.destructiveHint = some true ∨ h.readOnlyHint = some false)) ∧
    (t.hints = none → classifyIsWrite none t = false) := by
  refine ⟨?_, ?_, ?_⟩
  · unfold classifyIsWrite
    simp
  · unfold classifyIsWrite isWriteTool
    rcases hh : t.hints with _ | h
    · simp
    · simp only [Option.some.injEq]
      by_cases hd : h.destructiveHint = some true
      · simp [hd]
      · by_cases hr : h.readOnlyHint = some false
        · simp [hd, hr]
        · simp [hd, hr]
  · intro hh
    unfold classifyIsWrite isWriteTool
    rw [hh]

/-- Witness for C7: an explicit `writeTools` entry overrides a self-declared
read-only hint, and a hint-free tool is read. -/
theorem c7_is_write_classification_witness :
    classifyIsWrite (some ["docs_document_update"])
      ⟨"docs_document_update", some ⟨some true, none⟩⟩ = true ∧
    classifyIsWrite none ⟨"plain-tool", none⟩ = false :=
  ⟨(c7_is_write_classification ["docs_document_update"]
      ⟨"docs_document_update", some ⟨some true, none⟩⟩).1.mpr (by decide),
    (c7_is_write_classification [] ⟨"plain-tool", none⟩).2.2 rfl⟩

/-- Claim C8: when one enabled adapter's initialization always throws,
`ensureInitialized` still settles every enabled adapter: exactly one health
record is logged per enabled adapter, the failing adapter gets a `down`
record carrying the error, every succeeding enabled adapter gets an `up`
record with its discovered counts, and every other enabled adapter's tools
are still mounted by `registerOnServer`. -/
theorem c8_fault_isolation (adapters : List AdapterState) (a : AdapterState) (e : String)
    (ha : a ∈ adapters) (hen : a.cfg.enabled = true) (herr : a.initResult = .error e) :
    (ensureInitializedRecords adapters).length =
      (adapters.filter (fun x => x.cfg.enabled)).length ∧
    healthOf a = ⟨a.cfg.id, "down", none, none, some e⟩ ∧
    healthOf a ∈ ensureInitializedRecords adapters ∧
    (∀ b ∈ adapters, b.cfg.enabled = true →
      ∀ ts rs, b.initResult = .ok (ts, rs) →
        healthOf b = ⟨b.cfg.id, "up", some (adapterGetTools b).length,
          some (adapterGetResources b).length, none⟩ ∧
        healthOf b ∈ ensureInitializedRecords adapters) ∧
    (∀ b ∈ adapters, b.cfg.enabled = true → ∀ t ∈ adapterGetTools b,
      (b.cfg.pfx ++ t.name, t.isWrite) ∈ registeredAdapterTools adapters false) := by
  refine ⟨?_, ?_, ?_, ?_, ?_⟩
  · unfold ensureInitializedRecords
    rw [List.length_map]
  · unfold healthOf
    rw [herr]
  · unfold ensureInitializedRecords
    exact List.mem_map.mpr ⟨a, List.mem_filter.mpr ⟨ha, by simp [hen]⟩, rfl⟩
  · intro b hb hben ts rs hok
    constructor
    · unfold healthOf
      rw [hok]
    · unfold ensureInitializedRecords
      exact List.mem_map.mpr ⟨b, List.mem_filter.mpr ⟨hb, by simp [hben]⟩, rfl⟩
  · intro b hb hben t ht
    unfold registeredAdapterTools
    rw [List.mem_flatMap]
    refine ⟨b, List.mem_filter.mpr ⟨hb, by simp [hben]⟩, ?_⟩
    rw [List.mem_map]
    exact ⟨t, List.mem_filter.mpr ⟨ht, by simp⟩, rfl⟩

/-- Witness for C8: with a healthy adapter and an adapter whose initialization
always throws, both health records are logged and the healthy adapter's tools
are still mounted. -/
theorem c8_fault_isolation_witness :
    (ensureInitializedRecords [alphaAdapter, betaAdapter]).length = 2 ∧
    healthOf betaAdapter = ⟨"beta", "down", none, none, some "connection refused"⟩ ∧
    ("alpha-read-item", false) ∈ registeredAdapterTools [alphaAdapter, betaAdapter] false := by
  have h := c8_fault_isolation [alphaAdapter, betaAdapter] betaAdapter "connection refused"
    (List.mem_cons_of_mem _ (List.mem_cons_self _ _)) rfl rfl
  refine ⟨h.1.trans (by rfl), h.2.1, ?_⟩
  exact h.2.2.2.2 alphaAdapter (List.mem_cons_self _ _) rfl
    ⟨"read-item", false⟩ (by decide)

/-! ## Claim C9: cache invalidation on catalog synchronization -/

set_option maxRecDepth 400000 in
/-- Claim C9, evaluated at the failing input: running the registry
initialization tail over the seeded store with the enabled Google adapter
writes the `sources` and `source_rules` tables (the synthesized rows change
the store), yet the only cache invalidated on this path is the tool-name
source map — the routing-guide cache is not invalidated, contradicting the
claim that every write to these tables busts the routing-guide cache. -/
theorem c9_sync_skips_routing_cache :
    (ensureInitializedEffects seededStore [gdocsAdapter]).1 ≠ seededStore ∧
    CacheAction.routingGuide ∉ (ensureInitializedEffects seededStore [gdocsAdapter]).2 ∧
    (ensureInitializedEffects seededStore [gdocsAdapter]).2 = [CacheAction.sourceMap] := by
  refine ⟨by decide, by decide, rfl⟩

/-! ## Idempotence of the startup migration sequence

The remaining development establishes that every migration, run against the
state the full `initSchemaModel` sequence produces, takes its skip branch, and
hence that running the sequence a second time is the identity. -/

theorem head?_mem {α : Type} {l : List α} {a : α} (h : l.head? = some a) : a ∈ l := by
  cases l with
  | nil => cases h
  | cons x xs =>
      rw [List.head?_cons] at h
      injection h with h2
      subst h2
      exact List.mem_cons_self x xs

theorem find?_map_pres {α : Type} {F : α → α} {p : α → Bool} (hp : ∀ a, p (F a) = p a) :
    ∀ l : List α, (l.map F).find? p = (l.find? p).map F := by
  intro l
  induction l with
  | nil => rfl
  | cons x xs ih =>
      by_cases hx : p x = true
      · rw [List.map_cons, List.find?_cons_of_pos _ (by rw [hp]; exact hx),
          List.find?_cons_of_pos _ hx]
        rfl
      · rw [List.map_cons, List.find?_cons_of_neg _ (by rw [hp]; exact hx),
          List.find?_cons_of_neg _ hx, ih]

theorem find?_filter_comm {α : Type} {p q : α → Bool} (h : ∀ a, p a = true → q a = true) :
    ∀ l : List α, (l.filter q).find? p = l.find? p := by
  intro l
  induction l with
  | nil => rfl
  | cons x xs ih =>
      by_cases hq : q x = true
      · rw [List.filter_cons_of_pos hq]
        by_cases hp : p x = true
        · rw [List.find?_cons_of_pos _ hp, List.find?_cons_of_pos _ hp]
        · rw [List.find?_cons_of_neg _ hp, List.find?_cons_of_neg _ hp, ih]
      · have hp : ¬ p x = true := fun hpx => hq (h x hpx)
        rw [List.filter_cons_of_neg hq, List.find?_cons_of_neg _ hp, ih]

theorem find?_append_sing_neg {α : Type} {p : α → Bool} {x : α} (hx : ¬ p x = true) :
    ∀ l : List α, (l ++ [x]).find? p = l.find? p := by
  intro l
  induction l with
  | nil => rw [List.nil_append, List.find?_cons_of_neg _ hx]
  | cons y ys ih =>
      by_cases hy : p y = true
      · rw [List.cons_append, List.find?_cons_of_pos _ hy, List.find?_cons_of_pos _ hy]
      · rw [List.cons_append, List.find?_cons_of_neg _ hy, List.find?_cons_of_neg _ hy, ih]

theorem foldl_pres_proj {β : Type} {γ : Type} (g : Store → β → Store) (proj : Store → γ)
    (h : ∀ st b, proj (g st b) = proj st) :
    ∀ (l : List β) (st : Store), proj (l.foldl g st) = proj st := by
  intro l
  induction l with
  | nil => intro st; rfl
  | cons b rest ih => intro st; rw [List.foldl_cons, ih, h]

theorem foldlCompact_sources (l : List String) (st : Store) :
    (l.foldl (fun t c => compactPriorities t c) st).sources = st.sources :=
  foldl_pres_proj _ (fun t => t.sources) (fun t c => compact_sources t c) l st

theorem foldlCompact_contexts (l : List String) (st : Store) :
    (l.foldl (fun t c => compactPriorities t c) st).contexts = st.contexts :=
  foldl_pres_proj _ (fun t => t.contexts) (fun t c => compact_contexts t c) l st

theorem foldlCompact_nextId (l : List String) (st : Store) :
    (l.foldl (fun t c => compactPriorities t c) st).nextId = st.nextId :=
  foldl_pres_proj _ (fun t => t.nextId) (fun t c => compact_nextId t c) l st

theorem foldlCompact_flagP (l : List String) (st : Store) :
    (l.foldl (fun t c => compactPriorities t c) st).hasPriorityUnique = st.hasPriorityUnique :=
  foldl_pres_proj _ (fun t => t.hasPriorityUnique)
    (fun t c => compact_hasPriorityUnique t c) l st

theorem foldlCompact_fts (l : List String) (st : Store) :
    (l.foldl (fun t c => compactPriorities t c) st).hasFts = st.hasFts :=
  foldl_pres_proj _ (fun t => t.hasFts) (fun t c => compact_hasFts t c) l st

theorem removeSourceAndRules_sources (s : Store) (rid : String) :
    (removeSourceAndRules s rid).sources = s.sources.filter (fun src => !(src.id == rid)) := by
  simp only [removeSourceAndRules, foldlCompact_sources]

theorem removeSourceAndRules_contexts (s : Store) (rid : String) :
    (removeSourceAndRules s rid).contexts = s.contexts := by
  simp only [removeSourceAndRules, foldlCompact_contexts]

theorem removeSourceAndRules_flagP (s : Store) (rid : String) :
    (removeSourceAndRules s rid).hasPriorityUnique = s.hasPriorityUnique := by
  simp only [removeSourceAndRules, foldlCompact_flagP]

theorem removeSourceAndRules_fts (s : Store) (rid : String) :
    (removeSourceAndRules s rid).hasFts = s.hasFts := by
  simp only [removeSourceAndRules, foldlCompact_fts]

theorem foldlRemoveSrc_contexts (l : List Source) (st : Store) :
    (l.foldl (fun t src => removeSourceAndRules t src.id) st).contexts = st.contexts :=
  foldl_pres_proj _ (fun t => t.contexts)
    (fun t src => removeSourceAndRules_contexts t src.id) l st

theorem foldlRemoveSrc_flagP (l : List Source) (st : Store) :
    (l.foldl (fun t src => removeSourceAndRules t src.id) st).hasPriorityUnique =
      st.hasPriorityUnique :=
  foldl_pres_proj _ (fun t => t.hasPriorityUnique)
    (fun t src => removeSourceAndRules_flagP t src.id) l st

theorem foldlRemoveSrc_fts (l : List Source) (st : Store) :
    (l.foldl (fun t src => removeSourceAndRules t src.id) st).hasFts = st.hasFts :=
  foldl_pres_proj _ (fun t => t.hasFts)
    (fun t src => removeSourceAndRules_fts t src.id) l st

theorem foldlRemoveId_contexts (l : List String) (st : Store) :
    (l.foldl (fun t i => removeSourceAndRules t i) st).contexts = st.contexts :=
  foldl_pres_proj _ (fun t => t.contexts)
    (fun t i => removeSourceAndRules_contexts t i) l st

theorem foldlRemoveId_flagP (l : List String) (st : Store) :
    (l.foldl (fun t i => removeSourceAndRules t i) st).hasPriorityUnique =
      st.hasPriorityUnique :=
  foldl_pres_proj _ (fun t => t.hasPriorityUnique)
    (fun t i => removeSourceAndRules_flagP t i) l st

theorem foldlRemoveId_fts (l : List String) (st : Store) :
    (l.foldl (fun t i => removeSourceAndRules t i) st).hasFts = st.hasFts :=
  foldl_pres_proj _ (fun t => t.hasFts)
    (fun t i => removeSourceAndRules_fts t i) l st

theorem insertSourceOrIgnore_rules (s : Store) (i n d t r : String) :
    (insertSourceOrIgnore s i n d t r).rules = s.rules := by
  unfold insertSourceOrIgnore; split <;> rfl

theorem insertSourceOrIgnore_contexts (s : Store) (i n d t r : String) :
    (insertSourceOrIgnore s i n d t r).contexts = s.contexts := by
  unfold insertSourceOrIgnore; split <;> rfl

theorem insertSourceOrIgnore_flagP (s : Store) (i n d t r : String) :
    (insertSourceOrIgnore s i n d t r).hasPriorityUnique = s.hasPriorityUnique := by
  unfold insertSourceOrIgnore; split <;> rfl

theorem insertSourceOrIgnore_fts (s : Store) (i n d t r : String) :
    (insertSourceOrIgnore s i n d t r).hasFts = s.hasFts := by
  unfold insertSourceOrIgnore; split <;> rfl

theorem insertRuleOrIgnore_sources (s : Store) (c sid : String) (p : Int) (rsn : String) :
    (insertRuleOrIgnore s c sid p rsn).sources = s.sources := by
  unfold insertRuleOrIgnore
  split
  · rfl
  · split <;> rfl

theorem insertRuleOrIgnore_contexts (s : Store) (c sid : String) (p : Int) (rsn : String) :
    (insertRuleOrIgnore s c sid p rsn).contexts = s.contexts := by
  unfold insertRuleOrIgnore
  split
  · rfl
  · split <;> rfl

theorem insertRuleOrIgnore_flagP (s : Store) (c sid : String) (p : Int) (rsn : String) :
    (insertRuleOrIgnore s c sid p rsn).hasPriorityUnique = s.hasPriorityUnique := by
  unfold insertRuleOrIgnore
  split
  · rfl
  · split <;> rfl

theorem insertRuleOrIgnore_fts (s : Store) (c sid : String) (p : Int) (rsn : String) :
    (insertRuleOrIgnore s c sid p rsn).hasFts = s.hasFts := by
  unfold insertRuleOrIgnore
  split
  · rfl
  · split <;> rfl

theorem insertContextOrIgnore_sources (s : Store) (n d : String) :
    (insertContextOrIgnore s n d).sources = s.sources := by
  unfold insertContextOrIgnore; split <;> rfl

theorem insertContextOrIgnore_rules (s : Store) (n d : String) :
    (insertContextOrIgnore s n d).rules = s.rules := by
  unfold insertContextOrIgnore; split <;> rfl

theorem insertContextOrIgnore_flagP (s : Store) (n d : String) :
    (insertContextOrIgnore s n d).hasPriorityUnique = s.hasPriorityUnique := by
  unfold insertContextOrIgnore; split <;> rfl

theorem insertContextOrIgnore_fts (s : Store) (n d : String) :
    (insertContextOrIgnore s n d).hasFts = s.hasFts := by
  unfold insertContextOrIgnore; split <;> rfl

theorem updateReason_sources (s : Store) (rsn sid c : String) :
    (updateReason s rsn sid c).sources = s.sources := rfl

theorem updateReason_contexts (s : Store) (rsn sid c : String) :
    (updateReason s rsn sid c).contexts = s.contexts := rfl

theorem updateReason_flagP (s : Store) (rsn sid c : String) :
    (updateReason s rsn sid c).hasPriorityUnique = s.hasPriorityUnique := rfl

theorem updateReason_fts (s : Store) (rsn sid c : String) :
    (updateReason s rsn sid c).hasFts = s.hasFts := rfl

theorem migReorderV3_sources (s : Store) (c : String) (ds : List String) :
    (migReorderV3 s c ds).sources = s.sources := by
  simp only [migReorderV3, applyIdPhase_sources]

theorem migReorderV3_contexts (s : Store) (c : String) (ds : List String) :
    (migReorderV3 s c ds).contexts = s.contexts := by
  simp only [migReorderV3, applyIdPhase_contexts]

theorem migReorderV3_flagP (s : Store) (c : String) (ds : List String) :
    (migReorderV3 s c ds).hasPriorityUnique = s.hasPriorityUnique := by
  simp only [migReorderV3, applyIdPhase_hasPriorityUnique]

theorem migReorderV3_fts (s : Store) (c : String) (ds : List String) :
    (migReorderV3 s c ds).hasFts = s.hasFts := by
  simp only [migReorderV3, applyIdPhase_hasFts]

theorem ensureFts_sources (s : Store) : (ensureFts s).sources = s.sources := by
  unfold ensureFts; split <;> rfl

theorem ensureFts_contexts (s : Store) : (ensureFts s).contexts = s.contexts := by
  unfold ensureFts; split <;> rfl

theorem ensureFts_rules (s : Store) : (ensureFts s).rules = s.rules := by
  unfold ensureFts; split <;> rfl

theorem ensureFts_flagP (s : Store) :
    (ensureFts s).hasPriorityUnique = s.hasPriorityUnique := by
  unfold ensureFts; split <;> rfl

theorem ensureFts_fts (s : Store) : (ensureFts s).hasFts = true := by
  unfold ensureFts
  split
  case isTrue h => exact h
  case isFalse h => rfl

theorem seedDefaultSources_flagP (s : Store) :
    (seedDefaultSources s).hasPriorityUnique = s.hasPriorityUnique := by
  unfold seedDefaultSources
  split
  · rfl
  · simp only [insertRuleOrIgnore_flagP, insertSourceOrIgnore_flagP]

theorem seedDefaultSources_contexts (s : Store) :
    (seedDefaultSources s).contexts = s.contexts := by
  unfold seedDefaultSources
  split
  · rfl
  · simp only [insertRuleOrIgnore_contexts, insertSourceOrIgnore_contexts]

theorem seedDefaultContexts_flagP (s : Store) :
    (seedDefaultContexts s).hasPriorityUnique = s.hasPriorityUnique := by
  unfold seedDefaultContexts
  split
  · rfl
  · simp only [insertContextOrIgnore_flagP]

theorem seedDefaultContexts_sources (s : Store) :
    (seedDefaultContexts s).sources = s.sources := by
  unfold seedDefaultContexts
  split
  · rfl
  · simp only [insertContextOrIgnore_sources]

theorem migrateRemoveStaleSourcesV1_flagP (s : Store) :
    (migrateRemoveStaleSourcesV1 s).hasPriorityUnique = s.hasPriorityUnique := by
  simp only [migrateRemoveStaleSourcesV1]
  split
  · rfl
  · simp only [foldlRemoveSrc_flagP]

theorem migrateRemoveStaleSourcesV1_contexts (s : Store) :
    (migrateRemoveStaleSourcesV1 s).contexts = s.contexts := by
  simp only [migrateRemoveStaleSourcesV1]
  split
  · rfl
  · simp only [foldlRemoveSrc_contexts]

theorem migrateWritingsDescriptionV1_flagP (s : Store) :
    (migrateWritingsDescriptionV1 s).hasPriorityUnique = s.hasPriorityUnique := by
  unfold migrateWritingsDescriptionV1
  split
  · rfl
  · split <;> rfl

theorem migrateWritingsDescriptionV1_contexts (s : Store) :
    (migrateWritingsDescriptionV1 s).contexts = s.contexts := by
  unfold migrateWritingsDescriptionV1
  split
  · rfl
  · split <;> rfl

theorem migrateWritingsDescriptionV1_rules (s : Store) :
    (migrateWritingsDescriptionV1 s).rules = s.rules := by
  unfold migrateWritingsDescriptionV1
  split
  · rfl
  · split <;> rfl

theorem migrateRenameProjectManagementContextV1_flagP (s : Store) :
    (migrateRenameProjectManagementContextV1 s).hasPriorityUnique = s.hasPriorityUnique := by
  unfold migrateRenameProjectManagementContextV1
  split
  · rfl
  · simp only [insertContextOrIgnore_flagP]

theorem migrateRenameProjectManagementContextV1_sources (s : Store) :
    (migrateRenameProjectManagementContextV1 s).sources = s.sources := by
  unfold migrateRenameProjectManagementContextV1
  split
  · rfl
  · simp only [insertContextOrIgnore_sources]

theorem migrateProductStrategyDescriptionV2_flagP (s : Store) :
    (migrateProductStrategyDescriptionV2 s).hasPriorityUnique = s.hasPriorityUnique := by
  simp only [migrateProductStrategyDescriptionV2]
  split
  · rfl
  · split <;> rfl

theorem migrateProductStrategyDescriptionV2_sources (s : Store) :
    (migrateProductStrategyDescriptionV2 s).sources = s.sources := by
  simp only [migrateProductStrategyDescriptionV2]
  split
  · rfl
  · split <;> rfl

theorem migrateProductStrategyDescriptionV2_rules (s : Store) :
    (migrateProductStrategyDescriptionV2 s).rules = s.rules := by
  simp only [migrateProductStrategyDescriptionV2]
  split
  · rfl
  · split <;> rfl

theorem migrateRemoveWorkSourcesV2_flagP (s : Store) :
    (migrateRemoveWorkSourcesV2 s).hasPriorityUnique = s.hasPriorityUnique := by
  simp only [migrateRemoveWorkSourcesV2]
  split
  · rfl
  · simp only [foldlRemoveSrc_flagP]

theorem migrateRemoveWorkSourcesV2_contexts (s : Store) :
    (migrateRemoveWorkSourcesV2 s).contexts = s.contexts := by
  simp only [migrateRemoveWorkSourcesV2]
  split
  · rfl
  · simp only [foldlRemoveSrc_contexts]

theorem migrateExternalHintSourcesToDbV3_flagP (s : Store) :
    (migrateExternalHintSourcesToDbV3 s).hasPriorityUnique = s.hasPriorityUnique := by
  unfold migrateExternalHintSourcesToDbV3
  split
  · rfl
  · simp only [migReorderV3_flagP, insertRuleOrIgnore_flagP, insertSourceOrIgnore_flagP,
      foldlRemoveId_flagP]

theorem migrateExternalHintSourcesToDbV3_contexts (s : Store) :
    (migrateExternalHintSourcesToDbV3 s).contexts = s.contexts := by
  unfold migrateExternalHintSourcesToDbV3
  split
  · rfl
  · simp only [migReorderV3_contexts, insertRuleOrIgnore_contexts, insertSourceOrIgnore_contexts,
      foldlRemoveId_contexts]

theorem migrateExternalHintReasonsV4_flagP (s : Store) :
    (migrateExternalHintReasonsV4 s).hasPriorityUnique = s.hasPriorityUnique := by
  unfold migrateExternalHintReasonsV4
  split
  · rfl
  · split
    · rfl
    · simp only [updateReason_flagP]

theorem migrateExternalHintReasonsV4_contexts (s : Store) :
    (migrateExternalHintReasonsV4 s).contexts = s.contexts := by
  unfold migrateExternalHintReasonsV4
  split
  · rfl
  · split
    · rfl
    · simp only [updateReason_contexts]

theorem migrateExternalHintReasonsV4_sources (s : Store) :
    (migrateExternalHintReasonsV4 s).sources = s.sources := by
  unfold migrateExternalHintReasonsV4
  split
  · rfl
  · split
    · rfl
    · simp only [updateReason_sources]

theorem migrateRemoveOrphanGdocsSourceV5_flagP (s : Store) :
    (migrateRemoveOrphanGdocsSourceV5 s).hasPriorityUnique = s.hasPriorityUnique := by
  unfold migrateRemoveOrphanGdocsSourceV5
  split <;> rfl

theorem migrateRemoveOrphanGdocsSourceV5_contexts (s : Store) :
    (migrateRemoveOrphanGdocsSourceV5 s).contexts = s.contexts := by
  unfold migrateRemoveOrphanGdocsSourceV5
  split <;> rfl

theorem insertSourceOrIgnore_ids_mem {s : Store} {i n d t r : String} {x : String}
    (hx : x ∈ (insertSourceOrIgnore s i n d t r).sources.map (fun src => src.id)) :
    x ∈ s.sources.map (fun src => src.id) ∨ x = i := by
  unfold insertSourceOrIgnore at hx
  split at hx
  · exact Or.inl hx
  · rw [List.map_append] at hx
    rcases List.mem_append.mp hx with h | h
    · exact Or.inl h
    · right
      simpa using h

theorem insertSourceOrIgnore_mono {s : Store} (i n d t r : String) {src : Source}
    (h : src ∈ s.sources) : src ∈ (insertSourceOrIgnore s i n d t r).sources := by
  unfold insertSourceOrIgnore
  split
  · exact h
  · exact List.mem_append_left _ h

theorem insertSourceOrIgnore_present (s : Store) (i n d t r : String) :
    ∃ src ∈ (insertSourceOrIgnore s i n d t r).sources, src.id = i := by
  unfold insertSourceOrIgnore
  split
  case isTrue h =>
    rcases List.any_eq_true.mp h with ⟨src, hmem, hbeq⟩
    exact ⟨src, hmem, eq_of_beq hbeq⟩
  case isFalse h =>
    exact ⟨_, List.mem_append_right _ (List.mem_singleton.mpr rfl), rfl⟩

theorem insertContextOrIgnore_present (s : Store) (n d : String) :
    ∃ k ∈ (insertContextOrIgnore s n d).contexts, k.name = n := by
  unfold insertContextOrIgnore
  split
  case isTrue h =>
    rcases List.any_eq_true.mp h with ⟨k, hmem, hbeq⟩
    exact ⟨k, hmem, eq_of_beq hbeq⟩
  case isFalse h =>
    exact ⟨_, List.mem_append_right _ (List.mem_singleton.mpr rfl), rfl⟩

theorem removeSourceAndRules_ids_sub {s : Store} {rid x : String}
    (hx : x ∈ (removeSourceAndRules s rid).sources.map (fun src => src.id)) :
    x ∈ s.sources.map (fun src => src.id) := by
  rw [removeSourceAndRules_sources] at hx
  rcases List.mem_map.mp hx with ⟨src, hmem, rfl⟩
  exact List.mem_map.mpr ⟨src, (List.mem_filter.mp hmem).1, rfl⟩

theorem mem_ids_foldlRemoveSrc {x : String} :
    ∀ (l : List Source) (st : Store),
      x ∈ ((l.foldl (fun t src => removeSourceAndRules t src.id) st).sources.map
        (fun src => src.id)) →
      x ∈ st.sources.map (fun src => src.id) ∧ ∀ y ∈ l, ¬(x = y.id) := by
  intro l
  induction l with
  | nil =>
      intro st hx
      exact ⟨hx, fun y hy => absurd hy (List.not_mem_nil y)⟩
  | cons z zs ih =>
      intro st hx
      rw [List.foldl_cons] at hx
      rcases ih _ hx with ⟨hmem, hrest⟩
      rw [removeSourceAndRules_sources] at hmem
      rcases List.mem_map.mp hmem with ⟨src, hsrcmem, rfl⟩
      rcases List.mem_filter.mp hsrcmem with ⟨hmem0, hpass⟩
      refine ⟨List.mem_map.mpr ⟨src, hmem0, rfl⟩, ?_⟩
      intro y hy
      rcases List.mem_cons.mp hy with rfl | hy2
      · intro hEq
        rw [hEq] at hpass
        simp at hpass
      · exact hrest y hy2

theorem migrateRemoveStaleSourcesV1_absent (s : Store) :
    ∀ x ∈ (migrateRemoveStaleSourcesV1 s).sources.map (fun src => src.id),
      ¬(x = "writings-static-drift") ∧ ¬(x = "tom-cannon-research") := by
  intro x hx
  simp only [migrateRemoveStaleSourcesV1] at hx
  split at hx
  case isTrue h =>
    rw [List.isEmpty_iff, List.filter_eq_nil_iff] at h
    rcases List.mem_map.mp hx with ⟨src, hmem, rfl⟩
    have hnc := h src hmem
    constructor <;> · intro hEq; exact hnc (by rw [hEq]; decide)
  case isFalse h =>
    rcases mem_ids_foldlRemoveSrc _ _ hx with ⟨hmem0, hall⟩
    rcases List.mem_map.mp hmem0 with ⟨src, hsmem, rfl⟩
    constructor <;>
      · intro hEq
        refine hall src (List.mem_filter.mpr ⟨hsmem, ?_⟩) rfl
        rw [hEq]; decide

theorem migrateRemoveWorkSourcesV2_absent (s : Store) :
    ∀ x ∈ (migrateRemoveWorkSourcesV2 s).sources.map (fun src => src.id),
      ¬(x = "linear") ∧ ¬(x = "notion-work") ∧ ¬(x = "gdocs-work") := by
  intro x hx
  simp only [migrateRemoveWorkSourcesV2] at hx
  split at hx
  case isTrue h =>
    rw [List.isEmpty_iff, List.filter_eq_nil_iff] at h
    rcases List.mem_map.mp hx with ⟨src, hmem, rfl⟩
    have hnc := h src hmem
    refine ⟨?_, ?_, ?_⟩ <;> · intro hEq; exact hnc (by rw [hEq]; decide)
  case isFalse h =>
    rcases mem_ids_foldlRemoveSrc _ _ hx with ⟨hmem0, hall⟩
    rcases List.mem_map.mp hmem0 with ⟨src, hsmem, rfl⟩
    refine ⟨?_, ?_, ?_⟩ <;>
      · intro hEq
        refine hall src (List.mem_filter.mpr ⟨hsmem, ?_⟩) rfl
        rw [hEq]; decide

theorem migrateRemoveOrphanGdocsSourceV5_ids_sub {s : Store} {x : String}
    (hx : x ∈ (migrateRemoveOrphanGdocsSourceV5 s).sources.map (fun src => src.id)) :
    x ∈ s.sources.map (fun src => src.id) := by
  unfold migrateRemoveOrphanGdocsSourceV5 at hx
  split at hx
  · exact hx
  · rcases List.mem_map.mp hx with ⟨src, hmem, rfl⟩
    exact List.mem_map.mpr ⟨src, (List.mem_filter.mp hmem).1, rfl⟩

theorem migrateRemoveOrphanGdocsSourceV5_absent (s : Store) :
    ∀ x ∈ (migrateRemoveOrphanGdocsSourceV5 s).sources.map (fun src => src.id),
      ¬(x = "gdocs") := by
  intro x hx
  unfold migrateRemoveOrphanGdocsSourceV5 at hx
  split at hx
  case isTrue h =>
    rw [Bool.not_eq_true'] at h
    have h2 := List.any_eq_false.mp h
    rcases List.mem_map.mp hx with ⟨src, hmem, rfl⟩
    intro hEq
    exact h2 src hmem (by rw [hEq]; decide)
  case isFalse h =>
    rcases List.mem_map.mp hx with ⟨src, hmem, rfl⟩
    have hpass := (List.mem_filter.mp hmem).2
    intro hEq
    rw [hEq] at hpass
    simp at hpass

theorem migrateRemoveOrphanGdocsSourceV5_mono {s : Store} {src : Source}
    (h : src ∈ s.sources) (hid : ¬(src.id = "gdocs")) :
    src ∈ (migrateRemoveOrphanGdocsSourceV5 s).sources := by
  unfold migrateRemoveOrphanGdocsSourceV5
  split
  · exact h
  · refine List.mem_filter.mpr ⟨h, ?_⟩
    rw [Bool.not_eq_true', beq_eq_false_iff_ne]
    exact hid

theorem migrateWritingsDescriptionV1_ids (s : Store) :
    (migrateWritingsDescriptionV1 s).sources.map (fun src => src.id) =
      s.sources.map (fun src => src.id) := by
  unfold migrateWritingsDescriptionV1
  split
  · rfl
  · split
    · rfl
    · simp only [List.map_map]
      refine List.map_congr_left ?_
      intro a _
      by_cases h : a.id = "writings" <;> simp [h]

theorem migrateExternalHintSourcesToDbV3_ids_mem {s : Store} {x : String}
    (hx : x ∈ (migrateExternalHintSourcesToDbV3 s).sources.map (fun src => src.id)) :
    x ∈ s.sources.map (fun src => src.id) ∨
      x = "ext-linear" ∨ x = "ext-notion-work" ∨ x = "ext-gdocs-work" := by
  unfold migrateExternalHintSourcesToDbV3 at hx
  split at hx
  · exact Or.inl hx
  · simp only [migReorderV3_sources, insertRuleOrIgnore_sources] at hx
    rcases insertSourceOrIgnore_ids_mem hx with hx | rfl
    · rcases insertSourceOrIgnore_ids_mem hx with hx | rfl
      · rcases insertSourceOrIgnore_ids_mem hx with hx | rfl
        · rw [List.foldl_cons, List.foldl_cons, List.foldl_cons, List.foldl_nil] at hx
          exact Or.inl (removeSourceAndRules_ids_sub (removeSourceAndRules_ids_sub
            (removeSourceAndRules_ids_sub hx)))
        · exact Or.inr (Or.inl rfl)
      · exact Or.inr (Or.inr (Or.inl rfl))
    · exact Or.inr (Or.inr (Or.inr rfl))

theorem migrateExternalHintSourcesToDbV3_ext (s : Store) :
    ∃ src ∈ (migrateExternalHintSourcesToDbV3 s).sources, src.id = "ext-linear" := by
  unfold migrateExternalHintSourcesToDbV3
  split
  case isTrue h =>
    rcases List.any_eq_true.mp h with ⟨src, hmem, hbeq⟩
    exact ⟨src, hmem, eq_of_beq hbeq⟩
  case isFalse h =>
    simp only [migReorderV3_sources, insertRuleOrIgnore_sources]
    rcases insertSourceOrIgnore_present
        ((["linear", "notion-work", "gdocs-work"] : List String).foldl
          (fun st i => removeSourceAndRules st i) s)
        "ext-linear" "Linear"
        "Issues, sprints, and project tracking via separate MCP server" "" ""
      with ⟨src, hmem, hid⟩
    exact ⟨src, insertSourceOrIgnore_mono _ _ _ _ _
      (insertSourceOrIgnore_mono _ _ _ _ _ hmem), hid⟩

theorem removeSourceAndRules_find?_sources {tid rid : String} (h : (tid == rid) = false)
    (s : Store) :
    (removeSourceAndRules s rid).sources.find? (fun src => src.id == tid) =
      s.sources.find? (fun src => src.id == tid) := by
  rw [removeSourceAndRules_sources]
  apply find?_filter_comm
  intro a ha
  have h2 : a.id = tid := eq_of_beq ha
  show (!(a.id == rid)) = true
  rw [h2, h]
  rfl

theorem insertSourceOrIgnore_find?_sources {tid iid : String} (h : (iid == tid) = false)
    (s : Store) (n d t r : String) :
    (insertSourceOrIgnore s iid n d t r).sources.find? (fun src => src.id == tid) =
      s.sources.find? (fun src => src.id == tid) := by
  unfold insertSourceOrIgnore
  split
  · rfl
  · apply find?_append_sing_neg
    show ¬((iid == tid) = true)
    intro hc
    rw [h] at hc
    exact Bool.false_ne_true hc

theorem foldlRemoveSrc_find?_sources {tid : String} :
    ∀ (l : List Source) (st : Store), (∀ y ∈ l, (tid == y.id) = false) →
      ((l.foldl (fun t src => removeSourceAndRules t src.id) st).sources.find?
        (fun src => src.id == tid)) = st.sources.find? (fun src => src.id == tid) := by
  intro l
  induction l with
  | nil => intro st _; rfl
  | cons z zs ih =>
      intro st h
      rw [List.foldl_cons, ih _ (fun y hy => h y (List.mem_cons_of_mem z hy)),
        removeSourceAndRules_find?_sources (h z (List.mem_cons_self z zs))]

theorem migrateRemoveStaleSourcesV1_find?_writings (s : Store) :
    (migrateRemoveStaleSourcesV1 s).sources.find? (fun src => src.id == "writings") =
      s.sources.find? (fun src => src.id == "writings") := by
  simp only [migrateRemoveStaleSourcesV1]
  split
  · rfl
  · apply foldlRemoveSrc_find?_sources
    intro y hy
    have hc := (List.mem_filter.mp hy).2
    have h2 : y.id = "writings-static-drift" ∨ y.id = "tom-cannon-research" := by
      simpa using hc
    rcases h2 with h2 | h2 <;> (rw [h2]; decide)

theorem migrateRemoveWorkSourcesV2_find?_writings (s : Store) :
    (migrateRemoveWorkSourcesV2 s).sources.find? (fun src => src.id == "writings") =
      s.sources.find? (fun src => src.id == "writings") := by
  simp only [migrateRemoveWorkSourcesV2]
  split
  · rfl
  · apply foldlRemoveSrc_find?_sources
    intro y hy
    have hc := (List.mem_filter.mp hy).2
    have h2 : y.id = "linear" ∨ y.id = "notion-work" ∨ y.id = "gdocs-work" := by
      simpa using hc
    rcases h2 with h2 | h2 | h2 <;> (rw [h2]; decide)

theorem migrateExternalHintSourcesToDbV3_find?_writings (s : Store) :
    (migrateExternalHintSourcesToDbV3 s).sources.find? (fun src => src.id == "writings") =
      s.sources.find? (fun src => src.id == "writings") := by
  unfold migrateExternalHintSourcesToDbV3
  split
  · rfl
  · simp only [migReorderV3_sources, insertRuleOrIgnore_sources]
    rw [insertSourceOrIgnore_find?_sources (by decide),
      insertSourceOrIgnore_find?_sources (by decide),
      insertSourceOrIgnore_find?_sources (by decide),
      List.foldl_cons, List.foldl_cons, List.foldl_cons, List.foldl_nil,
      removeSourceAndRules_find?_sources (by decide),
      removeSourceAndRules_find?_sources (by decide),
      removeSourceAndRules_find?_sources (by decide)]

theorem migrateRemoveOrphanGdocsSourceV5_find?_writings (s : Store) :
    (migrateRemoveOrphanGdocsSourceV5 s).sources.find? (fun src => src.id == "writings") =
      s.sources.find? (fun src => src.id == "writings") := by
  unfold migrateRemoveOrphanGdocsSourceV5
  split
  · rfl
  · show ((s.sources.filter (fun src => !(src.id == "gdocs"))).find?
      (fun src => src.id == "writings")) = _
    apply find?_filter_comm
    intro a ha
    have h2 : a.id = "writings" := eq_of_beq ha
    show (!(a.id == "gdocs")) = true
    rw [h2]
    decide

theorem migrateWritingsDescriptionV1_eq_none {s : Store}
    (hfind : s.sources.find? (fun src => src.id == "writings") = none) :
    migrateWritingsDescriptionV1 s = s := by
  unfold migrateWritingsDescriptionV1
  simp only [hfind]

theorem migrateWritingsDescriptionV1_eq_skip {s : Store} {row : Source}
    (hfind : s.sources.find? (fun src => src.id == "writings") = some row)
    (hdesc : (row.description == writingsNewDesc) = true) :
    migrateWritingsDescriptionV1 s = s := by
  unfold migrateWritingsDescriptionV1
  simp only [hfind]
  rw [if_pos hdesc]

theorem migrateWritingsDescriptionV1_sources_map {s : Store} {row : Source}
    (hfind : s.sources.find? (fun src => src.id == "writings") = some row)
    (hdesc : ¬((row.description == writingsNewDesc) = true)) :
    (migrateWritingsDescriptionV1 s).sources = s.sources.map (fun src =>
      if src.id == "writings" then { src with description := writingsNewDesc } else src) := by
  unfold migrateWritingsDescriptionV1
  simp only [hfind]
  rw [if_neg hdesc]

theorem migrateWritingsDescriptionV1_post (s : Store) :
    ∀ row, (migrateWritingsDescriptionV1 s).sources.find?
        (fun src => src.id == "writings") = some row →
      row.description = writingsNewDesc := by
  intro row h
  rcases hfind : s.sources.find? (fun src => src.id == "writings") with _ | rowf
  · rw [migrateWritingsDescriptionV1_eq_none hfind, hfind] at h
    exact Option.noConfusion h
  · by_cases hdesc : (rowf.description == writingsNewDesc) = true
    · rw [migrateWritingsDescriptionV1_eq_skip hfind hdesc, hfind] at h
      injection h with h2
      rw [← h2]
      exact eq_of_beq hdesc
    · rw [migrateWritingsDescriptionV1_sources_map hfind hdesc] at h
      have hp : ∀ a : Source,
          (((if a.id == "writings" then { a with description := writingsNewDesc }
            else a) : Source).id == "writings") = (a.id == "writings") := by
        intro a
        by_cases hA : a.id = "writings" <;> simp [hA]
      rw [find?_map_pres hp, hfind] at h
      simp only [Option.map_some'] at h
      injection h with h2
      rw [← h2]
      have hid := List.find?_some hfind
      simp only at hid
      simp [hid]

theorem migrateProductStrategyDescriptionV2_eq_none {s : Store}
    (hfind : s.contexts.find? (fun k => k.name == "product-and-project-strategy") = none) :
    migrateProductStrategyDescriptionV2 s = s := by
  simp only [migrateProductStrategyDescriptionV2, hfind]

theorem migrateProductStrategyDescriptionV2_eq_skip {s : Store} {row : Ctx}
    (hfind : s.contexts.find? (fun k => k.name == "product-and-project-strategy") = some row)
    (hdesc : ((["Product strategy, vision documents, roadmaps, and project tracking via Notion and Google Docs",
        "Product strategy, vision documents, roadmaps, and project tracking via Linear, Notion, and Google Docs"] :
        List String).contains row.description) = false) :
    migrateProductStrategyDescriptionV2 s = s := by
  simp only [migrateProductStrategyDescriptionV2, hfind]
  rw [if_pos (by rw [hdesc]; rfl)]

theorem migrateProductStrategyDescriptionV2_ctx_map {s : Store} {row : Ctx}
    (hfind : s.contexts.find? (fun k => k.name == "product-and-project-strategy") = some row)
    (hdesc : ((["Product strategy, vision documents, roadmaps, and project tracking via Notion and Google Docs",
        "Product strategy, vision documents, roadmaps, and project tracking via Linear, Notion, and Google Docs"] :
        List String).contains row.description) = true) :
    (migrateProductStrategyDescriptionV2 s).contexts = s.contexts.map (fun k =>
      if k.name == "product-and-project-strategy" then { k with description := ppsDesc }
      else k) := by
  simp only [migrateProductStrategyDescriptionV2, hfind]
  rw [if_neg (by rw [hdesc]; exact fun hc => Bool.false_ne_true hc)]

theorem migrateProductStrategyDescriptionV2_post (s : Store) :
    ∀ row, (migrateProductStrategyDescriptionV2 s).contexts.find?
        (fun k => k.name == "product-and-project-strategy") = some row →
      ((["Product strategy, vision documents, roadmaps, and project tracking via Notion and Google Docs",
        "Product strategy, vision documents, roadmaps, and project tracking via Linear, Notion, and Google Docs"] :
        List String).contains row.description) = false := by
  intro row h
  rcases hfind : s.contexts.find? (fun k => k.name == "product-and-project-strategy")
    with _ | rowf
  · rw [migrateProductStrategyDescriptionV2_eq_none hfind, hfind] at h
    exact Option.noConfusion h
  · by_cases hdesc : ((["Product strategy, vision documents, roadmaps, and project tracking via Notion and Google Docs",
        "Product strategy, vision documents, roadmaps, and project tracking via Linear, Notion, and Google Docs"] :
        List String).contains rowf.description) = true
    · rw [migrateProductStrategyDescriptionV2_ctx_map hfind hdesc] at h
      have hp : ∀ a : Ctx,
          (((if a.name == "product-and-project-strategy" then { a with description := ppsDesc }
            else a) : Ctx).name == "product-and-project-strategy") =
            (a.name == "product-and-project-strategy") := by
        intro a
        by_cases hA : a.name = "product-and-project-strategy" <;> simp [hA]
      rw [find?_map_pres hp, hfind] at h
      simp only [Option.map_some'] at h
      injection h with h2
      rw [← h2]
      have hid := List.find?_some hfind
      simp only at hid
      rw [if_pos hid]
      show ((["Product strategy, vision documents, roadmaps, and project tracking via Notion and Google Docs",
        "Product strategy, vision documents, roadmaps, and project tracking via Linear, Notion, and Google Docs"] :
        List String).contains ppsDesc) = false
      decide
    · have hfalse : ((["Product strategy, vision documents, roadmaps, and project tracking via Notion and Google Docs",
          "Product strategy, vision documents, roadmaps, and project tracking via Linear, Notion, and Google Docs"] :
          List String).contains rowf.description) = false := by
        simpa using hdesc
      rw [migrateProductStrategyDescriptionV2_eq_skip hfind hfalse, hfind] at h
      injection h with h2
      rw [← h2]
      exact hfalse

theorem migrateProductStrategyDescriptionV2_names (s : Store) :
    (migrateProductStrategyDescriptionV2 s).contexts.map (fun k => k.name) =
      s.contexts.map (fun k => k.name) := by
  simp only [migrateProductStrategyDescriptionV2]
  split
  · rfl
  · split
    · rfl
    · simp only [List.map_map]
      refine List.map_congr_left ?_
      intro a _
      by_cases h : a.name = "product-and-project-strategy" <;> simp [h]

theorem migrateRenameProjectManagementContextV1_post (s : Store) :
    ∀ k ∈ (migrateRenameProjectManagementContextV1 s).contexts,
      (k.name == "project-management") = false := by
  intro k hk
  unfold migrateRenameProjectManagementContextV1 at hk
  split at hk
  case isTrue h =>
    rw [Bool.not_eq_true'] at h
    simpa using List.any_eq_false.mp h k hk
  case isFalse h =>
    simp only [List.mem_filter] at hk
    simpa using hk.2

theorem insertContextOrIgnore_ne_nil (s : Store) (n d : String) :
    (insertContextOrIgnore s n d).contexts ≠ [] := by
  rcases insertContextOrIgnore_present s n d with ⟨k, hk, _⟩
  exact List.ne_nil_of_mem hk

theorem seedDefaultContexts_ne_nil (s : Store) : (seedDefaultContexts s).contexts ≠ [] := by
  unfold seedDefaultContexts
  split
  case isTrue h =>
    rw [Bool.not_eq_true'] at h
    intro hnil
    rw [hnil] at h
    simp at h
  case isFalse h =>
    exact insertContextOrIgnore_ne_nil _ _ _

theorem migrateRenameProjectManagementContextV1_ne_nil {s : Store} (h : s.contexts ≠ []) :
    (migrateRenameProjectManagementContextV1 s).contexts ≠ [] := by
  unfold migrateRenameProjectManagementContextV1
  split
  · exact h
  · rcases insertContextOrIgnore_present s "product-and-project-strategy" ppsDesc
      with ⟨k, hk, hname⟩
    exact List.ne_nil_of_mem (List.mem_filter.mpr ⟨hk, by rw [hname]; decide⟩)

theorem updateReason_post (s : Store) (rsn sid c : String) :
    ∀ r ∈ (updateReason s rsn sid c).rules,
      ((r.sourceId == sid && r.context == c) = true) → r.reason = rsn := by
  intro r hr
  rcases List.mem_map.mp hr with ⟨r0, hr0, heq⟩
  rw [← heq]
  split
  · intro _; rfl
  case isFalse hg => intro hcond; exact absurd hcond hg

theorem updateReason_pres_prop {sid c tgt : String} {s : Store} {rsn sid2 c2 : String}
    (hdiff : (sid == sid2) = false ∨ (c == c2) = false)
    (h : ∀ r ∈ s.rules, ((r.sourceId == sid && r.context == c) = true) → r.reason = tgt) :
    ∀ r ∈ (updateReason s rsn sid2 c2).rules,
      ((r.sourceId == sid && r.context == c) = true) → r.reason = tgt := by
  intro r hr
  rcases List.mem_map.mp hr with ⟨r0, hr0, heq⟩
  rw [← heq]
  split
  case isTrue hg =>
    intro hcond
    exfalso
    rw [Bool.and_eq_true] at hg hcond
    have h1 : r0.sourceId = sid2 := eq_of_beq hg.1
    have h2 : r0.context = c2 := eq_of_beq hg.2
    have h3 : r0.sourceId = sid := eq_of_beq hcond.1
    have h4 : r0.context = c := eq_of_beq hcond.2
    rcases hdiff with hd | hd
    · exact (beq_eq_false_iff_ne.mp hd) (by rw [← h3]; exact h1)
    · exact (beq_eq_false_iff_ne.mp hd) (by rw [← h4]; exact h2)
  case isFalse hg =>
    intro hcond
    exact h r0 hr0 hcond

theorem migrateExternalHintReasonsV4_eq_none {s : Store}
    (hh : (s.rules.filter
      (fun r => r.sourceId == "ext-linear" && r.context == "code")).head? = none) :
    migrateExternalHintReasonsV4 s = s := by
  unfold migrateExternalHintReasonsV4
  simp only [hh]

theorem migrateExternalHintReasonsV4_eq_skip {s : Store} {sample : Rule}
    (hh : (s.rules.filter
      (fun r => r.sourceId == "ext-linear" && r.context == "code")).head? = some sample)
    (hr : (sample.reason == "Check for engineering issues and tech specs") = true) :
    migrateExternalHintReasonsV4 s = s := by
  unfold migrateExternalHintReasonsV4
  simp only [hh]
  rw [if_pos hr]

theorem migrateExternalHintReasonsV4_P4 (s : Store) :
    ∀ row, ((migrateExternalHintReasonsV4 s).rules.filter
        (fun r => r.sourceId == "ext-linear" && r.context == "code")).head? = some row →
      row.reason = "Check for engineering issues and tech specs" := by
  intro row h
  rcases hh : (s.rules.filter
    (fun r => r.sourceId == "ext-linear" && r.context == "code")).head? with _ | sample
  · rw [migrateExternalHintReasonsV4_eq_none hh, hh] at h
    exact Option.noConfusion h
  · by_cases hr : (sample.reason == "Check for engineering issues and tech specs") = true
    · rw [migrateExternalHintReasonsV4_eq_skip hh hr, hh] at h
      injection h with h2
      rw [← h2]
      exact eq_of_beq hr
    · unfold migrateExternalHintReasonsV4 at h
      simp only [hh] at h
      rw [if_neg hr] at h
      have hmem := head?_mem h
      rcases List.mem_filter.mp hmem with ⟨hrmem, hcond⟩
      refine updateReason_pres_prop (Or.inl (by decide)) ?_ row hrmem hcond
      refine updateReason_pres_prop (Or.inl (by decide)) ?_
      refine updateReason_pres_prop (Or.inr (by decide)) ?_
      refine updateReason_pres_prop (Or.inl (by decide)) ?_
      refine updateReason_pres_prop (Or.inl (by decide)) ?_
      refine updateReason_pres_prop (Or.inl (by decide)) ?_
      refine updateReason_pres_prop (Or.inl (by decide)) ?_
      exact updateReason_post _ _ _ _

theorem migrateRemoveOrphanGdocsSourceV5_rules_p4 (s : Store) :
    (migrateRemoveOrphanGdocsSourceV5 s).rules.filter
        (fun r => r.sourceId == "ext-linear" && r.context == "code") =
      s.rules.filter (fun r => r.sourceId == "ext-linear" && r.context == "code") := by
  unfold migrateRemoveOrphanGdocsSourceV5
  split
  · rfl
  · show ((s.rules.filter (fun r => !(r.sourceId == "gdocs"))).filter
      (fun r => r.sourceId == "ext-linear" && r.context == "code")) = _
    rw [List.filter_filter]
    refine filter_and_eq ?_
    intro r hr hp
    rw [Bool.and_eq_true] at hp
    have h2 : r.sourceId = "ext-linear" := eq_of_beq hp.1
    show (!(r.sourceId == "gdocs")) = true
    rw [h2]
    decide

theorem migrateRemoveStaleSourcesV1_ids_sub {s : Store} {x : String}
    (hx : x ∈ (migrateRemoveStaleSourcesV1 s).sources.map (fun src => src.id)) :
    x ∈ s.sources.map (fun src => src.id) := by
  simp only [migrateRemoveStaleSourcesV1] at hx
  split at hx
  · exact hx
  · exact (mem_ids_foldlRemoveSrc _ _ hx).1

theorem migrateRemoveWorkSourcesV2_ids_sub {s : Store} {x : String}
    (hx : x ∈ (migrateRemoveWorkSourcesV2 s).sources.map (fun src => src.id)) :
    x ∈ s.sources.map (fun src => src.id) := by
  simp only [migrateRemoveWorkSourcesV2] at hx
  split at hx
  · exact hx
  · exact (mem_ids_foldlRemoveSrc _ _ hx).1

theorem migrateSourceRulesConstraint_skip {s : Store} (h : s.hasPriorityUnique = true) :
    migrateSourceRulesConstraint s = s := by
  unfold migrateSourceRulesConstraint
  rw [if_pos h]

theorem seedDefaultSources_skip {s : Store} (h : s.sources ≠ []) :
    seedDefaultSources s = s := by
  have h2 : s.sources.isEmpty = false := by
    cases hs : s.sources
    · exact absurd hs h
    · rfl
  unfold seedDefaultSources
  split
  case isTrue _ => rfl
  case isFalse hc =>
    exfalso
    apply hc
    rw [h2]
    rfl

theorem seedDefaultContexts_skip {s : Store} (h : s.contexts ≠ []) :
    seedDefaultContexts s = s := by
  have h2 : s.contexts.isEmpty = false := by
    cases hs : s.contexts
    · exact absurd hs h
    · rfl
  unfold seedDefaultContexts
  split
  case isTrue _ => rfl
  case isFalse hc =>
    exfalso
    apply hc
    rw [h2]
    rfl

theorem migrateRemoveStaleSourcesV1_skip {s : Store}
    (h : ∀ x ∈ s.sources.map (fun src => src.id),
      ¬(x = "writings-static-drift") ∧ ¬(x = "tom-cannon-research")) :
    migrateRemoveStaleSourcesV1 s = s := by
  simp only [migrateRemoveStaleSourcesV1]
  split
  case isTrue _ => rfl
  case isFalse hc =>
    exfalso
    apply hc
    rw [List.isEmpty_iff, List.filter_eq_nil_iff]
    intro a ha hcont
    have h2 := h a.id (List.mem_map.mpr ⟨a, ha, rfl⟩)
    have h3 : a.id = "writings-static-drift" ∨ a.id = "tom-cannon-research" := by
      simpa using hcont
    rcases h3 with h3 | h3
    · exact h2.1 h3
    · exact h2.2 h3

theorem migrateWritingsDescriptionV1_skip {s : Store}
    (h : ∀ row, s.sources.find? (fun src => src.id == "writings") = some row →
      row.description = writingsNewDesc) :
    migrateWritingsDescriptionV1 s = s := by
  rcases hfind : s.sources.find? (fun src => src.id == "writings") with _ | rowf
  · exact migrateWritingsDescriptionV1_eq_none hfind
  · refine migrateWritingsDescriptionV1_eq_skip hfind ?_
    rw [h rowf hfind]
    exact beq_self_eq_true _

theorem migrateRenameProjectManagementContextV1_skip {s : Store}
    (h : ∀ k ∈ s.contexts, (k.name == "project-management") = false) :
    migrateRenameProjectManagementContextV1 s = s := by
  unfold migrateRenameProjectManagementContextV1
  split
  case isTrue _ => rfl
  case isFalse hc =>
    exfalso
    apply hc
    rw [Bool.not_eq_true']
    refine List.any_eq_false.mpr ?_
    intro k hk hbeq
    rw [h k hk] at hbeq
    exact Bool.false_ne_true hbeq

theorem migrateProductStrategyDescriptionV2_skip {s : Store}
    (h : ∀ row, s.contexts.find? (fun k => k.name == "product-and-project-strategy") =
        some row →
      ((["Product strategy, vision documents, roadmaps, and project tracking via Notion and Google Docs",
        "Product strategy, vision documents, roadmaps, and project tracking via Linear, Notion, and Google Docs"] :
        List String).contains row.description) = false) :
    migrateProductStrategyDescriptionV2 s = s := by
  rcases hfind : s.contexts.find? (fun k => k.name == "product-and-project-strategy")
    with _ | rowf
  · exact migrateProductStrategyDescriptionV2_eq_none hfind
  · exact migrateProductStrategyDescriptionV2_eq_skip hfind (h rowf hfind)

theorem migrateRemoveWorkSourcesV2_skip {s : Store}
    (h : ∀ x ∈ s.sources.map (fun src => src.id),
      ¬(x = "linear") ∧ ¬(x = "notion-work") ∧ ¬(x = "gdocs-work")) :
    migrateRemoveWorkSourcesV2 s = s := by
  simp only [migrateRemoveWorkSourcesV2]
  split
  case isTrue _ => rfl
  case isFalse hc =>
    exfalso
    apply hc
    rw [List.isEmpty_iff, List.filter_eq_nil_iff]
    intro a ha hcont
    have h2 := h a.id (List.mem_map.mpr ⟨a, ha, rfl⟩)
    have h3 : a.id = "linear" ∨ a.id = "notion-work" ∨ a.id = "gdocs-work" := by
      simpa using hcont
    rcases h3 with h3 | h3 | h3
    · exact h2.1 h3
    · exact h2.2.1 h3
    · exact h2.2.2 h3

theorem migrateExternalHintSourcesToDbV3_skip {s : Store}
    (h : ∃ src ∈ s.sources, src.id = "ext-linear") :
    migrateExternalHintSourcesToDbV3 s = s := by
  unfold migrateExternalHintSourcesToDbV3
  split
  case isTrue _ => rfl
  case isFalse hc =>
    exfalso
    apply hc
    rcases h with ⟨src, hmem, hid⟩
    refine List.any_eq_true.mpr ⟨src, hmem, ?_⟩
    rw [hid]
    exact beq_self_eq_true _

theorem migrateExternalHintReasonsV4_skip {s : Store}
    (h : ∀ row, (s.rules.filter
        (fun r => r.sourceId == "ext-linear" && r.context == "code")).head? = some row →
      row.reason = "Check for engineering issues and tech specs") :
    migrateExternalHintReasonsV4 s = s := by
  rcases hh : (s.rules.filter
    (fun r => r.sourceId == "ext-linear" && r.context == "code")).head? with _ | sample
  · exact migrateExternalHintReasonsV4_eq_none hh
  · refine migrateExternalHintReasonsV4_eq_skip hh ?_
    rw [h sample hh]
    exact beq_self_eq_true _

theorem migrateRemoveOrphanGdocsSourceV5_skip {s : Store}
    (h : ∀ x ∈ s.sources.map (fun src => src.id), ¬(x = "gdocs")) :
    migrateRemoveOrphanGdocsSourceV5 s = s := by
  unfold migrateRemoveOrphanGdocsSourceV5
  split
  case isTrue _ => rfl
  case isFalse hc =>
    exfalso
    apply hc
    rw [Bool.not_eq_true']
    refine List.any_eq_false.mpr ?_
    intro a ha hbeq
    exact h a.id (List.mem_map.mpr ⟨a, ha, rfl⟩) (eq_of_beq hbeq)

theorem ensureFts_skip {s : Store} (h : s.hasFts = true) : ensureFts s = s := by
  unfold ensureFts
  rw [if_pos h]

theorem migrateProductStrategyDescriptionV2_ne_nil {s : Store} (h : s.contexts ≠ []) :
    (migrateProductStrategyDescriptionV2 s).contexts ≠ [] := by
  intro hnil
  have hns := migrateProductStrategyDescriptionV2_names s
  rw [hnil] at hns
  have h2 : s.contexts.map (fun k => k.name) = [] := by simpa using hns.symm
  exact h (List.map_eq_nil_iff.mp h2)

theorem initSchema_flag (s : Store) : (initSchemaModel s).hasPriorityUnique = true := by
  unfold initSchemaModel
  rw [ensureFts_flagP, migrateRemoveOrphanGdocsSourceV5_flagP,
    migrateExternalHintReasonsV4_flagP, migrateExternalHintSourcesToDbV3_flagP,
    migrateRemoveWorkSourcesV2_flagP, migrateProductStrategyDescriptionV2_flagP,
    migrateRenameProjectManagementContextV1_flagP, migrateWritingsDescriptionV1_flagP,
    migrateRemoveStaleSourcesV1_flagP, seedDefaultContexts_flagP, seedDefaultSources_flagP]
  unfold migrateSourceRulesConstraint
  split
  case isTrue h => exact h
  case isFalse h => rfl

theorem initSchema_fts (s : Store) : (initSchemaModel s).hasFts = true := by
  unfold initSchemaModel
  exact ensureFts_fts _

theorem initSchema_ctx_ne_nil (s : Store) : (initSchemaModel s).contexts ≠ [] := by
  unfold initSchemaModel
  rw [ensureFts_contexts, migrateRemoveOrphanGdocsSourceV5_contexts,
    migrateExternalHintReasonsV4_contexts, migrateExternalHintSourcesToDbV3_contexts,
    migrateRemoveWorkSourcesV2_contexts]
  refine migrateProductStrategyDescriptionV2_ne_nil ?_
  refine migrateRenameProjectManagementContextV1_ne_nil ?_
  rw [migrateWritingsDescriptionV1_contexts, migrateRemoveStaleSourcesV1_contexts]
  exact seedDefaultContexts_ne_nil _

theorem initSchema_ext (s : Store) :
    ∃ src ∈ (initSchemaModel s).sources, src.id = "ext-linear" := by
  unfold initSchemaModel
  rw [ensureFts_sources]
  rcases migrateExternalHintSourcesToDbV3_ext (migrateRemoveWorkSourcesV2
    (migrateProductStrategyDescriptionV2 (migrateRenameProjectManagementContextV1
      (migrateWritingsDescriptionV1 (migrateRemoveStaleSourcesV1 (seedDefaultContexts
        (seedDefaultSources (migrateSourceRulesConstraint s)))))))) with ⟨src, hmem, hid⟩
  refine ⟨src, ?_, hid⟩
  refine migrateRemoveOrphanGdocsSourceV5_mono ?_ (by rw [hid]; decide)
  rw [migrateExternalHintReasonsV4_sources]
  exact hmem

theorem initSchema_src_ne_nil (s : Store) : (initSchemaModel s).sources ≠ [] := by
  rcases initSchema_ext s with ⟨src, hmem, _⟩
  exact List.ne_nil_of_mem hmem

theorem initSchema_stale_absent (s : Store) :
    ∀ x ∈ (initSchemaModel s).sources.map (fun src => src.id),
      ¬(x = "writings-static-drift") ∧ ¬(x = "tom-cannon-research") := by
  intro x hx
  unfold initSchemaModel at hx
  rw [ensureFts_sources] at hx
  have hx := migrateRemoveOrphanGdocsSourceV5_ids_sub hx
  rw [migrateExternalHintReasonsV4_sources] at hx
  rcases migrateExternalHintSourcesToDbV3_ids_mem hx with hx | h | h | h
  · have hx := migrateRemoveWorkSourcesV2_ids_sub hx
    rw [migrateProductStrategyDescriptionV2_sources,
      migrateRenameProjectManagementContextV1_sources, migrateWritingsDescriptionV1_ids] at hx
    exact migrateRemoveStaleSourcesV1_absent _ x hx
  · rw [h]; exact ⟨by decide, by decide⟩
  · rw [h]; exact ⟨by decide, by decide⟩
  · rw [h]; exact ⟨by decide, by decide⟩

theorem initSchema_work_absent (s : Store) :
    ∀ x ∈ (initSchemaModel s).sources.map (fun src => src.id),
      ¬(x = "linear") ∧ ¬(x = "notion-work") ∧ ¬(x = "gdocs-work") := by
  intro x hx
  unfold initSchemaModel at hx
  rw [ensureFts_sources] at hx
  have hx := migrateRemoveOrphanGdocsSourceV5_ids_sub hx
  rw [migrateExternalHintReasonsV4_sources] at hx
  rcases migrateExternalHintSourcesToDbV3_ids_mem hx with hx | h | h | h
  · exact migrateRemoveWorkSourcesV2_absent _ x hx
  · rw [h]; exact ⟨by decide, by decide, by decide⟩
  · rw [h]; exact ⟨by decide, by decide, by decide⟩
  · rw [h]; exact ⟨by decide, by decide, by decide⟩

theorem initSchema_gdocs_absent (s : Store) :
    ∀ x ∈ (initSchemaModel s).sources.map (fun src => src.id), ¬(x = "gdocs") := by
  intro x hx
  unfold initSchemaModel at hx
  rw [ensureFts_sources] at hx
  exact migrateRemoveOrphanGdocsSourceV5_absent _ x hx

theorem initSchema_writings (s : Store) :
    ∀ row, (initSchemaModel s).sources.find? (fun src => src.id == "writings") = some row →
      row.description = writingsNewDesc := by
  intro row h
  unfold initSchemaModel at h
  rw [ensureFts_sources, migrateRemoveOrphanGdocsSourceV5_find?_writings,
    migrateExternalHintReasonsV4_sources, migrateExternalHintSourcesToDbV3_find?_writings,
    migrateRemoveWorkSourcesV2_find?_writings, migrateProductStrategyDescriptionV2_sources,
    migrateRenameProjectManagementContextV1_sources] at h
  exact migrateWritingsDescriptionV1_post _ row h

theorem initSchema_pm_absent (s : Store) :
    ∀ k ∈ (initSchemaModel s).contexts, (k.name == "project-management") = false := by
  intro k hk
  unfold initSchemaModel at hk
  rw [ensureFts_contexts, migrateRemoveOrphanGdocsSourceV5_contexts,
    migrateExternalHintReasonsV4_contexts, migrateExternalHintSourcesToDbV3_contexts,
    migrateRemoveWorkSourcesV2_contexts] at hk
  have hkn : k.name ∈ ((migrateProductStrategyDescriptionV2
      (migrateRenameProjectManagementContextV1 (migrateWritingsDescriptionV1
        (migrateRemoveStaleSourcesV1 (seedDefaultContexts (seedDefaultSources
          (migrateSourceRulesConstraint s))))))).contexts.map (fun k => k.name)) :=
    List.mem_map.mpr ⟨k, hk, rfl⟩
  rw [migrateProductStrategyDescriptionV2_names] at hkn
  rcases List.mem_map.mp hkn with ⟨k0, hk0, heq⟩
  rw [← heq]
  exact migrateRenameProjectManagementContextV1_post _ k0 hk0

theorem initSchema_pps (s : Store) :
    ∀ row, (initSchemaModel s).contexts.find?
        (fun k => k.name == "product-and-project-strategy") = some row →
      ((["Product strategy, vision documents, roadmaps, and project tracking via Notion and Google Docs",
        "Product strategy, vision documents, roadmaps, and project tracking via Linear, Notion, and Google Docs"] :
        List String).contains row.description) = false := by
  intro row h
  unfold initSchemaModel at h
  rw [ensureFts_contexts, migrateRemoveOrphanGdocsSourceV5_contexts,
    migrateExternalHintReasonsV4_contexts, migrateExternalHintSourcesToDbV3_contexts,
    migrateRemoveWorkSourcesV2_contexts] at h
  exact migrateProductStrategyDescriptionV2_post _ row h

theorem initSchema_p4 (s : Store) :
    ∀ row, ((initSchemaModel s).rules.filter
        (fun r => r.sourceId == "ext-linear" && r.context == "code")).head? = some row →
      row.reason = "Check for engineering issues and tech specs" := by
  intro row h
  unfold initSchemaModel at h
  rw [ensureFts_rules, migrateRemoveOrphanGdocsSourceV5_rules_p4] at h
  exact migrateExternalHintReasonsV4_P4 _ row h

/-- Claim C3: the startup migration sequence is idempotent. Against the store
produced by a full `initSchema` run, every individual migration finds that its
target state already holds, takes its skip branch and performs no write; and
running the whole sequence a second time returns the store unchanged. -/
theorem c3_migrations_idempotent (s : Store) :
    (migrateSourceRulesConstraint (initSchemaModel s) = initSchemaModel s ∧
      seedDefaultSources (initSchemaModel s) = initSchemaModel s ∧
      seedDefaultContexts (initSchemaModel s) = initSchemaModel s ∧
      migrateRemoveStaleSourcesV1 (initSchemaModel s) = initSchemaModel s ∧
      migrateWritingsDescriptionV1 (initSchemaModel s) = initSchemaModel s ∧
      migrateRenameProjectManagementContextV1 (initSchemaModel s) = initSchemaModel s ∧
      migrateProductStrategyDescriptionV2 (initSchemaModel s) = initSchemaModel s ∧
      migrateRemoveWorkSourcesV2 (initSchemaModel s) = initSchemaModel s ∧
      migrateExternalHintSourcesToDbV3 (initSchemaModel s) = initSchemaModel s ∧
      migrateExternalHintReasonsV4 (initSchemaModel s) = initSchemaModel s ∧
      migrateRemoveOrphanGdocsSourceV5 (initSchemaModel s) = initSchemaModel s ∧
      ensureFts (initSchemaModel s) = initSchemaModel s) ∧
    initSchemaModel (initSchemaModel s) = initSchemaModel s := by
  have e1 : migrateSourceRulesConstraint (initSchemaModel s) = initSchemaModel s :=
    migrateSourceRulesConstraint_skip (initSchema_flag s)
  have e2 : seedDefaultSources (initSchemaModel s) = initSchemaModel s :=
    seedDefaultSources_skip (initSchema_src_ne_nil s)
  have e3 : seedDefaultContexts (initSchemaModel s) = initSchemaModel s :=
    seedDefaultContexts_skip (initSchema_ctx_ne_nil s)
  have e4 : migrateRemoveStaleSourcesV1 (initSchemaModel s) = initSchemaModel s :=
    migrateRemoveStaleSourcesV1_skip (initSchema_stale_absent s)
  have e5 : migrateWritingsDescriptionV1 (initSchemaModel s) = initSchemaModel s :=
    migrateWritingsDescriptionV1_skip (initSchema_writings s)
  have e6 : migrateRenameProjectManagementContextV1 (initSchemaModel s) = initSchemaModel s :=
    migrateRenameProjectManagementContextV1_skip (initSchema_pm_absent s)
  have e7 : migrateProductStrategyDescriptionV2 (initSchemaModel s) = initSchemaModel s :=
    migrateProductStrategyDescriptionV2_skip (initSchema_pps s)
  have e8 : migrateRemoveWorkSourcesV2 (initSchemaModel s) = initSchemaModel s :=
    migrateRemoveWorkSourcesV2_skip (initSchema_work_absent s)
  have e9 : migrateExternalHintSourcesToDbV3 (initSchemaModel s) = initSchemaModel s :=
    migrateExternalHintSourcesToDbV3_skip (initSchema_ext s)
  have e10 : migrateExternalHintReasonsV4 (initSchemaModel s) = initSchemaModel s :=
    migrateExternalHintReasonsV4_skip (initSchema_p4 s)
  have e11 : migrateRemoveOrphanGdocsSourceV5 (initSchemaModel s) = initSchemaModel s :=
    migrateRemoveOrphanGdocsSourceV5_skip (initSchema_gdocs_absent s)
  have e12 : ensureFts (initSchemaModel s) = initSchemaModel s :=
    ensureFts_skip (initSchema_fts s)
  refine ⟨⟨e1, e2, e3, e4, e5, e6, e7, e8, e9, e10, e11, e12⟩, ?_⟩
  rw [initSchemaModel, e1, e2, e3, e4, e5, e6, e7, e8, e9, e10, e11]
  exact e12

end RobinMcp
